import Mathlib

/-!
Verification of the Python-repository-to-Neo4j knowledge-graph pipeline.

A shallow embedding of `repo_to_neo4j.py`: the tree extractor
(`ComprehensiveExtractor`), the complexity metrics, the directory walker,
and the Neo4j loader's batching logic, together with theorems settling the
specification claims about them.

Conventions of the embedding:
* Python strings are Lean `String`s, Python ints are `Int`/`Nat`.
* Python dicts that are only ever read through `get`/`[]` (the extractor's
  `imports_map` and `defined_names`) are association lists where an update
  prepends a pair and lookup takes the most recent binding, which matches
  dict read semantics.
* The SHA-1 digest from `hashlib` (external library code) is modelled as an
  injective encoding (the identity on the digested text): every claim proved
  here depends on the digest only through "equal inputs give equal digests"
  and, for distinctness, the spec's collision-resistance assumption that
  distinct inputs give distinct digests.
* Record dicts built by the extractor are modelled as structures whose
  optional fields are `Option`s; `none` models an absent key (the source
  never stores an explicit `None` under a key whose presence matters).
-/

/-- Python `"::".join(parts)` (`str.join`): the faithful join used by
`stable_id`. -/
def pyJoin (sep : String) : List String → String
  | [] => ""
  | [x] => x
  | x :: xs => x ++ sep ++ pyJoin sep xs

/-- Split a character list at a single separator character (Python
`str.split(sep)` for the one-character separators the source uses). -/
def splitCharsOn (sep : Char) : List Char → List (List Char)
  | [] => [[]]
  | c :: rest =>
      match splitCharsOn sep rest with
      | [] => if c = sep then [[], []] else [[c]]
      | h :: t => if c = sep then [] :: h :: t else (c :: h) :: t

/-- Python `s.split(sep)` for a one-character separator, on code points. -/
def pySplitOnChar (sep : Char) (s : String) : List String :=
  (splitCharsOn sep s.data).map (fun l => ⟨l⟩)

/-- Python `s.startswith(p)`. -/
def pyStartsWith (s p : String) : Bool :=
  p.data.isPrefixOf s.data

/-- Python `s.endswith(p)`. -/
def pyEndsWith (s p : String) : Bool :=
  p.data.reverse.isPrefixOf s.data.reverse

/-- Python `s[:n]` (slice by code points). -/
def pyTake (s : String) (n : Nat) : String := ⟨s.data.take n⟩

/-- Python `s[n:]` (slice by code points). -/
def pyDrop (s : String) (n : Nat) : String := ⟨s.data.drop n⟩

/-- Python `c in s` for a single character. -/
def pyContainsChar (s : String) (c : Char) : Bool := s.data.contains c

/-- Python `s.replace(".py", "")`: remove every (leftmost-first)
occurrence of `".py"`. -/
def removeDotPy : List Char → List Char
  | '.' :: 'p' :: 'y' :: rest => removeDotPy rest
  | c :: rest => c :: removeDotPy rest
  | [] => []

/-- Model of `sha1_hex` (source line 106): `hashlib.sha1(...).hexdigest()` is
external library code; it is modelled as an injective encoding of the digested
text (the identity), matching the spec's collision-resistance assumption.
Theorems below use it only through congruence and injectivity. -/
def sha1_hex (s : String) : String := s

/-- `stable_id(*parts)` (source line 111): SHA-1 of the parts joined by
`"::"`. The `str(p)` coercion is a no-op since every part is a string. -/
def stable_id (parts : List String) : String :=
  sha1_hex (pyJoin "::" parts)

/-- Python `str.splitlines` restricted to `"\n"` newlines (the only newline
kind appearing in the modelled sources): no trailing empty line. -/
def pySplitlines (s : String) : List String :=
  if s = "" then []
  else
    let parts := pySplitOnChar '\n' s
    if parts.getLast? = some "" then parts.dropLast else parts

/-- `pathlib.Path.name`: the final path component. -/
def pathName (p : String) : String :=
  (pySplitOnChar '/' p).getLastD ""

/-- `pathlib.Path.suffix`: the extension of the final component, with the
dot, empty for no dot or a leading-dot-only name. -/
def pathSuffix (p : String) : String :=
  let n := pathName p
  let parts := pySplitOnChar '.' n
  if parts.length ≤ 1 then ""
  else if parts.headD "" = "" ∧ parts.length = 2 then ""
  else "." ++ parts.getLastD ""

/-- `file_path.relative_to(repo_root)` as used in `record_file_node`
(source line 179). Python raises `ValueError` when the path is not under the
root; the pipeline only ever calls it on paths discovered by walking the
root, so the non-subpath case (modelled as returning the path unchanged) is
never reached by the claims. -/
def relativeTo (path root : String) : String :=
  if pyStartsWith path (root ++ "/") then pyDrop path (root.length + 1)
  else path

/-- Python `str.isupper`: no cased character is lowercase and at least one
is uppercase (ASCII subset). -/
def pyIsUpper (s : String) : Bool :=
  (!s.data.any Char.isLower) && s.data.any Char.isUpper

/- ============================================================
   The Python AST subset walked by `ComprehensiveExtractor`
   ============================================================ -/

/-- Literal constants (`ast.Constant`) of the modelled subset. -/
inductive Const where
  | int (n : Int)
  | str (s : String)
  | bool (b : Bool)
  | none
deriving DecidableEq, Repr

/-- The boolean operator of an `ast.BoolOp` (`ast.And` / `ast.Or`). -/
inductive BoolK where
  | and
  | or
deriving DecidableEq, Repr

/-- Python expressions (`ast.expr`) of the modelled subset. Every
constructor carries its `lineno`, as CPython AST nodes do. -/
inductive Expr where
  | name (lineno : Nat) (id : String)
  | attr (lineno : Nat) (value : Expr) (attrName : String)
  | call (lineno : Nat) (func : Expr) (args : List Expr)
      (keywords : List (Option String × Expr))
  | boolOp (lineno : Nat) (op : BoolK) (values : List Expr)
  | const (lineno : Nat) (v : Const)

/-- `ast.alias` of an import statement. -/
structure ImportAlias where
  name : String
  asname : Option String
deriving DecidableEq, Repr

/-- `ast.arg`: a single formal parameter with its optional annotation
expression. -/
structure Arg where
  arg : String
  ann : Option Expr

/-- `ast.arguments` (positional-only parameters, unused by the claims, are
omitted from the subset). -/
structure Args where
  args : List Arg
  defaults : List Expr
  vararg : Option Arg
  kwonlyargs : List Arg
  kw_defaults : List (Option Expr)
  kwarg : Option Arg

/-- The empty `ast.arguments`, for functions without parameters. -/
def emptyArgs : Args := ⟨[], [], Option.none, [], [], Option.none⟩

mutual
/-- Python statements (`ast.stmt`) of the modelled subset.
`functionDef` covers `ast.FunctionDef` and `ast.AsyncFunctionDef` (the
visitor treats them identically apart from the `is_async` flag, source
lines 506-522). `withStmt` models a `with` with a single context item and
no `as` target. `fault` models a statement whose visit raises an
unexpected runtime exception mid-traversal (spec section 7(b)); no other
constructor's visit can raise. -/
inductive Stmt where
  | functionDef (lineno endLineno : Nat) (isAsync : Bool) (name : String)
      (args : Args) (body : List Stmt) (decoratorList : List Expr)
      (returns : Option Expr)
  | classDef (lineno endLineno : Nat) (name : String) (bases : List Expr)
      (body : List Stmt) (decoratorList : List Expr)
  | assign (lineno : Nat) (targets : List Expr) (value : Expr)
  | importStmt (lineno : Nat) (names : List ImportAlias)
  | importFrom (lineno : Nat) (module : Option String)
      (names : List ImportAlias) (level : Nat)
  | ret (lineno : Nat) (value : Option Expr)
  | raiseStmt (lineno : Nat) (exc : Option Expr)
  | ifStmt (lineno : Nat) (test : Expr) (body orelse : List Stmt)
  | whileStmt (lineno : Nat) (test : Expr) (body orelse : List Stmt)
  | forStmt (lineno : Nat) (target iter : Expr) (body orelse : List Stmt)
  | withStmt (lineno : Nat) (ctx : Expr) (body : List Stmt)
  | tryStmt (lineno : Nat) (body : List Stmt) (handlers : List Handler)
      (orelse finalbody : List Stmt)
  | assertStmt (lineno : Nat) (test : Expr)
  | exprStmt (lineno : Nat) (value : Expr)
  | pass (lineno : Nat)
  | fault (lineno : Nat)

/-- `ast.ExceptHandler`. -/
inductive Handler where
  | mk (lineno : Nat) (typ : Option Expr) (body : List Stmt)
end

/-- The `lineno` of an expression node. -/
def Expr.linenoOf : Expr → Nat
  | .name l _ => l
  | .attr l _ _ => l
  | .call l _ _ _ => l
  | .boolOp l _ _ => l
  | .const l _ => l

/- ============================================================
   `ast.unparse` on the subset, `_safe_unparse`, `_get_full_name`
   ============================================================ -/

/-- `repr`-style rendering of a constant as `ast.unparse` produces it. -/
def unparseConst : Const → String
  | .int n => toString n
  | .str s => "\x27" ++ s ++ "\x27"
  | .bool b => if b then "True" else "False"
  | .none => "None"

mutual
/-- `ast.unparse` on the modelled expression subset (precedence
parenthesisation is not needed for the shapes the claims evaluate). -/
def unparseExpr : Expr → String
  | .name _ i => i
  | .attr _ v a => unparseExpr v ++ "." ++ a
  | .call _ f as ks =>
      unparseExpr f ++ "(" ++
        pyJoin ", " (unparseList as ++ unparseKwList ks) ++ ")"
  | .boolOp _ k vs =>
      pyJoin (match k with | .and => " and " | .or => " or ") (unparseList vs)
  | .const _ c => unparseConst c

def unparseList : List Expr → List String
  | [] => []
  | e :: es => unparseExpr e :: unparseList es

def unparseKwList : List (Option String × Expr) → List String
  | [] => []
  | (Option.some a, v) :: ks => (a ++ "=" ++ unparseExpr v) :: unparseKwList ks
  | (Option.none, v) :: ks => ("**" ++ unparseExpr v) :: unparseKwList ks
end

/-- `_safe_unparse` (source line 212): `ast.unparse(node)[:200]`. On the
modelled subset `ast.unparse` exists (Python 3.9+) and never raises, so the
result is always present. -/
def safeUnparse (e : Expr) : Option String :=
  Option.some (pyTake (unparseExpr e) 200)

/-- `_get_full_name` (source line 221): collect attribute names innermost
last, append the base `Name` id if there is one, join reversed with dots. -/
def getFullNameAux : Expr → List String → List String
  | .attr _ v a, acc => getFullNameAux v (acc ++ [a])
  | .name _ i, acc => acc ++ [i]
  | _, acc => acc

def getFullName (e : Expr) : String :=
  pyJoin "." (getFullNameAux e []).reverse

/- ============================================================
   `ast.walk` and the complexity / metric counters
   ============================================================ -/

/-- A node yielded by `ast.walk`: a statement, an expression, an exception
handler, or the operator object of a `BoolOp` (`ast.And` / `ast.Or`
instances are AST nodes and are yielded by `ast.walk`). Nodes of kinds that
no `isinstance` test in the source matches (`ast.alias`, `ast.arg`,
`ast.keyword`, `ast.arguments`) are omitted: they contribute to no count. -/
inductive PyNode where
  | stmtN (s : Stmt)
  | exprN (e : Expr)
  | handlerN (h : Handler)
  | opN (k : BoolK)

mutual
/-- All nodes of an expression's subtree (the node itself included), as
`ast.walk` yields them; the traversal order is irrelevant to every count
taken over it. -/
def walkExpr : Expr → List PyNode
  | .name l i => [.exprN (.name l i)]
  | .attr l v a => .exprN (.attr l v a) :: walkExpr v
  | .call l f as ks =>
      .exprN (.call l f as ks) :: (walkExpr f ++ walkExprList as ++ walkKwList ks)
  | .boolOp l k vs =>
      .exprN (.boolOp l k vs) :: .opN k :: walkExprList vs
  | .const l c => [.exprN (.const l c)]

def walkExprList : List Expr → List PyNode
  | [] => []
  | e :: es => walkExpr e ++ walkExprList es

def walkKwList : List (Option String × Expr) → List PyNode
  | [] => []
  | (_, v) :: ks => walkExpr v ++ walkKwList ks
end

/-- Walk of the expression children of an `ast.arguments` node
(annotations, defaults, keyword-only defaults). -/
def walkArgList : List Arg → List PyNode
  | [] => []
  | ⟨_, Option.some a⟩ :: rest => walkExpr a ++ walkArgList rest
  | ⟨_, Option.none⟩ :: rest => walkArgList rest

def walkOptExpr : Option Expr → List PyNode
  | Option.some e => walkExpr e
  | Option.none => []

def walkOptExprList : List (Option Expr) → List PyNode
  | [] => []
  | o :: rest => walkOptExpr o ++ walkOptExprList rest

def walkArgs (a : Args) : List PyNode :=
  walkArgList a.args ++
    (match a.vararg with
      | Option.some v => walkArgList [v]
      | Option.none => []) ++
    walkArgList a.kwonlyargs ++ walkOptExprList a.kw_defaults ++
    (match a.kwarg with
      | Option.some v => walkArgList [v]
      | Option.none => []) ++
    walkExprList a.defaults

mutual
/-- All nodes of a statement's subtree, as `ast.walk` yields them. -/
def walkStmt : Stmt → List PyNode
  | .functionDef l el ia nm ags bd dl rt =>
      .stmtN (.functionDef l el ia nm ags bd dl rt) ::
        (walkArgs ags ++ walkStmtList bd ++ walkExprList dl ++ walkOptExpr rt)
  | .classDef l el nm bs bd dl =>
      .stmtN (.classDef l el nm bs bd dl) ::
        (walkExprList bs ++ walkStmtList bd ++ walkExprList dl)
  | .assign l ts v =>
      .stmtN (.assign l ts v) :: (walkExprList ts ++ walkExpr v)
  | .importStmt l ns => [.stmtN (.importStmt l ns)]
  | .importFrom l m ns lv => [.stmtN (.importFrom l m ns lv)]
  | .ret l v => .stmtN (.ret l v) :: walkOptExpr v
  | .raiseStmt l e => .stmtN (.raiseStmt l e) :: walkOptExpr e
  | .ifStmt l t b o =>
      .stmtN (.ifStmt l t b o) :: (walkExpr t ++ walkStmtList b ++ walkStmtList o)
  | .whileStmt l t b o =>
      .stmtN (.whileStmt l t b o) :: (walkExpr t ++ walkStmtList b ++ walkStmtList o)
  | .forStmt l tg it b o =>
      .stmtN (.forStmt l tg it b o) ::
        (walkExpr tg ++ walkExpr it ++ walkStmtList b ++ walkStmtList o)
  | .withStmt l c b => .stmtN (.withStmt l c b) :: (walkExpr c ++ walkStmtList b)
  | .tryStmt l b hs o f =>
      .stmtN (.tryStmt l b hs o f) ::
        (walkStmtList b ++ walkHandlerList hs ++ walkStmtList o ++ walkStmtList f)
  | .assertStmt l t => .stmtN (.assertStmt l t) :: walkExpr t
  | .exprStmt l v => .stmtN (.exprStmt l v) :: walkExpr v
  | .pass l => [.stmtN (.pass l)]
  | .fault l => [.stmtN (.fault l)]

def walkStmtList : List Stmt → List PyNode
  | [] => []
  | s :: ss => walkStmt s ++ walkStmtList ss

def walkHandlerList : List Handler → List PyNode
  | [] => []
  | ⟨l, t, b⟩ :: hs =>
      (.handlerN ⟨l, t, b⟩ :: (walkOptExpr t ++ walkStmtList b)) ++ walkHandlerList hs
end

/-- The per-node contribution of `calculate_complexity`'s loop body
(source lines 119-124): `+1` for `If`/`For`/`While`/`And`/`Or`/
`ExceptHandler`/`With`/`Assert`, `len(values) - 1` for `BoolOp`. -/
def complexityContrib : PyNode → Int
  | .stmtN (.ifStmt ..) => 1
  | .stmtN (.forStmt ..) => 1
  | .stmtN (.whileStmt ..) => 1
  | .stmtN (.withStmt ..) => 1
  | .stmtN (.assertStmt ..) => 1
  | .handlerN _ => 1
  | .opN _ => 1
  | .exprN (.boolOp _ _ vs) => (vs.length : Int) - 1
  | _ => 0

/-- `calculate_complexity` (source line 116): start at 1 and add each walked
node's contribution. -/
def calculate_complexity (node : Stmt) : Int :=
  1 + ((walkStmt node).map complexityContrib).sum

def isReturnNode : PyNode → Bool
  | .stmtN (.ret ..) => true
  | _ => false

/-- Branch nodes counted by `_compute_metrics`: `ast.If` (the subset has no
`ast.IfExp`). -/
def isBranchNode : PyNode → Bool
  | .stmtN (.ifStmt ..) => true
  | _ => false

def isLoopNode : PyNode → Bool
  | .stmtN (.forStmt ..) => true
  | .stmtN (.whileStmt ..) => true
  | _ => false

/-- Is a statement one of the compound kinds `calc_depth` recurses into
(`For`, `While`, `If`, `With`, `Try`; source line 396)? -/
def isCompound : Stmt → Bool
  | .forStmt .. => true
  | .whileStmt .. => true
  | .ifStmt .. => true
  | .withStmt .. => true
  | .tryStmt .. => true
  | _ => false

mutual
/-- `calc_depth` (source lines 393-398): recurse only into compound direct
child statements, incrementing the depth. Statement children of a `Try`'s
handlers are not direct children of the `Try`, so (faithfully) they are not
reached. -/
def calcDepth (n : Stmt) (depth : Nat) : Nat :=
  match n with
  | .functionDef _ _ _ _ _ bd _ _ => calcDepthList bd depth depth
  | .classDef _ _ _ _ bd _ => calcDepthList bd depth depth
  | .ifStmt _ _ b o => calcDepthList o depth (calcDepthList b depth depth)
  | .whileStmt _ _ b o => calcDepthList o depth (calcDepthList b depth depth)
  | .forStmt _ _ _ b o => calcDepthList o depth (calcDepthList b depth depth)
  | .withStmt _ _ b => calcDepthList b depth depth
  | .tryStmt _ b _ o f =>
      calcDepthList f depth (calcDepthList o depth (calcDepthList b depth depth))
  | _ => depth

/-- Fold the `max` accumulation of `calc_depth` over a direct child
statement list. -/
def calcDepthList (l : List Stmt) (depth acc : Nat) : Nat :=
  match l with
  | [] => acc
  | c :: rest =>
      if isCompound c then
        calcDepthList rest depth (max acc (calcDepth c (depth + 1)))
      else calcDepthList rest depth acc
end

/-- `ast.get_docstring`: the leading string-constant expression statement of
a body, if any. The `inspect.cleandoc` whitespace normalisation that CPython
applies is omitted (no claim depends on docstring text). -/
def getDocstring : List Stmt → Option String
  | .exprStmt _ (.const _ (.str s)) :: _ => Option.some s
  | _ => Option.none

/-- `CodeMetrics` (source line 88). -/
structure CodeMetrics where
  lines_of_code : Int
  complexity : Int
  num_parameters : Nat
  num_returns : Nat
  num_branches : Nat
  num_loops : Nat
  has_docstring : Bool
  num_decorators : Nat
  max_nesting_depth : Nat
deriving DecidableEq, Repr

/-- `_compute_metrics` (source line 383), taking the function-definition
statement's fields. -/
def computeMetrics (lineno endLineno : Nat) (ags : Args) (body : List Stmt)
    (decoratorList : List Expr) (returns : Option Expr) (isAsync : Bool)
    (name : String) : CodeMetrics :=
  let node : Stmt :=
    .functionDef lineno endLineno isAsync name ags body decoratorList returns
  { lines_of_code := (endLineno : Int) - (lineno : Int) + 1
    complexity := calculate_complexity node
    num_parameters := ags.args.length
    num_returns := (walkStmt node).countP isReturnNode
    num_branches := (walkStmt node).countP isBranchNode
    num_loops := (walkStmt node).countP isLoopNode
    has_docstring := (getDocstring body).isSome
    num_decorators := decoratorList.length
    max_nesting_depth := calcDepth node 0 }

/- ============================================================
   Node and edge records
   ============================================================ -/

/-- One entry of a function's `parameters` list (`_extract_parameters`,
source line 331): keys `name`, `type`, `kind`, `default`, `position`. -/
structure ParamRec where
  name : String
  type : Option String
  kind : String
  default : Option String
  position : Nat
deriving DecidableEq, Repr

/-- One entry of `_extract_decorators`' result (source line 300): keys
`name`, `args`, `kwargs`. -/
structure DecInfo where
  name : Option String
  args : List (Option String)
  kwargs : List (Option String × Option String)
deriving DecidableEq, Repr

/-- A node record: the Python code builds per-kind dicts; they are modelled
as one structure whose optional fields default to `none` (absent key).
`decorators` holds `Option String` entries for function nodes (Python
stores the possibly-`None` decorator names there) and, for class nodes,
the always-present rendered names wrapped in `some`. `aliasName` models
the dict key `alias` (a Lean keyword). -/
structure NodeRec where
  id : String
  type : String
  name : Option String := Option.none
  aliasName : Option String := Option.none
  path : Option String := Option.none
  relpath : Option String := Option.none
  module : Option String := Option.none
  extension : Option String := Option.none
  sha1 : Option String := Option.none
  lines_of_code : Option Nat := Option.none
  size_bytes : Option Nat := Option.none
  language : Option String := Option.none
  encoding : Option String := Option.none
  full_name : Option String := Option.none
  import_type : Option String := Option.none
  level : Option Nat := Option.none
  is_relative : Option Bool := Option.none
  is_stdlib : Option Bool := Option.none
  lineno : Option Nat := Option.none
  end_lineno : Option Nat := Option.none
  qualified_name : Option String := Option.none
  is_async : Option Bool := Option.none
  is_method : Option Bool := Option.none
  is_static : Option Bool := Option.none
  is_class_method : Option Bool := Option.none
  is_property : Option Bool := Option.none
  is_private : Option Bool := Option.none
  is_magic : Option Bool := Option.none
  decorators : Option (List (Option String)) := Option.none
  decorator_details : Option (List DecInfo) := Option.none
  parameters : Option (List ParamRec) := Option.none
  return_type : Option String := Option.none
  docstring : Option String := Option.none
  snippet : Option String := Option.none
  metrics : Option CodeMetrics := Option.none
  bases : Option (List String) := Option.none
  num_methods : Option Nat := Option.none
  num_class_vars : Option Nat := Option.none
  is_abstract : Option Bool := Option.none
  value : Option String := Option.none
  value_type : Option String := Option.none
  is_global : Option Bool := Option.none
  is_constant : Option Bool := Option.none
  scope : Option String := Option.none
  param_type : Option String := Option.none
  kind : Option String := Option.none
  default : Option String := Option.none
  position : Option Nat := Option.none
  args : Option (List (Option String)) := Option.none
  kwargs : Option (List (Option String × Option String)) := Option.none
deriving DecidableEq, Repr

/-- An edge record; `to_id`/`to`/`to_name` are optional keys exactly as in
the source dicts; `toKey` models the dict key `to` (a Lean keyword). The
extractor itself sets only `from_id`, never `to` (that alternative key is
handled by the loader for generality). -/
structure EdgeRec where
  type : String
  from_id : String
  to_id : Option String := Option.none
  toKey : Option String := Option.none
  to_name : Option String := Option.none
  lineno : Option Nat := Option.none
  relationship : Option String := Option.none
  resolved_name : Option String := Option.none
  num_args : Option Nat := Option.none
  num_kwargs : Option Nat := Option.none
  inferred : Option Bool := Option.none
  base_name : Option String := Option.none
  position : Option Nat := Option.none
deriving DecidableEq, Repr

/-- The fixed standard-library allow-list of `_is_stdlib`
(source lines 203-208). -/
def stdlibModules : List String :=
  ["abc", "argparse", "ast", "asyncio", "collections", "copy",
   "dataclasses", "datetime", "enum", "functools", "hashlib",
   "itertools", "json", "logging", "math", "os", "pathlib",
   "pickle", "re", "sys", "time", "typing", "unittest"]

/-- `_is_stdlib` (source line 201): membership of the root module in the
allow-list. -/
def isStdlib (moduleName : String) : Bool :=
  stdlibModules.contains ((pySplitOnChar '.' moduleName).headD "")

/- ============================================================
   Extractor state and the traversal
   ============================================================ -/

/-- The mutable state of one `ComprehensiveExtractor` instance. The scope
stack is kept top-first (Python appends and reads `[-1]`). `importsMap`,
`definedNames` prepend updated bindings; lookup takes the first match, the
read semantics of a Python dict. -/
structure XState where
  repoRoot : String
  filePath : String
  src : String
  nodes : List NodeRec
  edges : List EdgeRec
  currentScopeStack : List String
  currentFunction : Option String
  currentClass : Option String
  importsMap : List (String × String)
  definedNames : List (String × String)
  scopeVars : List (String × String)
  stats : List (String × Nat)
  fileId : String
deriving DecidableEq, Repr

/-- Dict write `m[k] = v`. -/
def dictSet (m : List (String × String)) (k v : String) :
    List (String × String) :=
  (k, v) :: m

/-- Dict read `m.get(k)`. -/
def dictGet (m : List (String × String)) (k : String) : Option String :=
  (m.find? (fun kv => kv.1 == k)).map (·.2)

/-- `ComprehensiveExtractor.__init__` (source line 149). -/
def initState (repoRoot filePath src : String) : XState :=
  { repoRoot := repoRoot, filePath := filePath, src := src
    nodes := [], edges := []
    currentScopeStack := [], currentFunction := Option.none
    currentClass := Option.none
    importsMap := [], definedNames := [], scopeVars := []
    stats := [("functions", 0), ("classes", 0), ("methods", 0),
              ("imports", 0), ("calls", 0), ("variables", 0),
              ("decorators", 0)]
    fileId := stable_id [filePath] }

/-- `_get_current_scope` (source line 174). -/
def getCurrentScope (s : XState) : String :=
  s.currentScopeStack.headD s.fileId

/-- `self.nodes.append(n)`. -/
def emitNodeS (n : NodeRec) (s : XState) : XState :=
  { s with nodes := s.nodes ++ [n] }

/-- `self.edges.append(e)`. -/
def emitEdgeS (e : EdgeRec) (s : XState) : XState :=
  { s with edges := s.edges ++ [e] }

/-- `self.stats[key] += 1`. -/
def bumpStat (k : String) (s : XState) : XState :=
  { s with stats := s.stats.map (fun kv => if kv.1 == k then (kv.1, kv.2 + 1) else kv) }

/-- `record_file_node` (source line 177). -/
def recordFileNodeS (s : XState) : XState :=
  let relpath := relativeTo s.filePath s.repoRoot
  let moduleName : String :=
    ⟨removeDotPy (relpath.data.map (fun c =>
      if c = '/' then '.' else if c = '\\' then '.' else c))⟩
  let lines := pySplitlines s.src
  let node : NodeRec :=
    { id := s.fileId, type := "File"
      name := Option.some (pathName s.filePath)
      path := Option.some s.filePath
      relpath := Option.some relpath
      module := Option.some moduleName
      extension := Option.some (pathSuffix s.filePath)
      sha1 := Option.some (sha1_hex s.src)
      lines_of_code := Option.some lines.length
      size_bytes := Option.some s.src.utf8ByteSize
      language := Option.some "python"
      encoding := Option.some "utf-8" }
  let s := emitNodeS node s
  { s with currentScopeStack := s.fileId :: s.currentScopeStack }

/-- Loop body of `visit_Import` (source lines 233-257): one Import node and
one Imports edge per alias. -/
def visitImportAliases (lineno : Nat) : List ImportAlias → XState → XState
  | [], s => s
  | al :: rest, s =>
      let target := al.name
      let importAlias := al.asname.getD al.name
      let s := { s with importsMap := dictSet s.importsMap importAlias target }
      let importId := stable_id [s.fileId, "import", target, toString lineno]
      let s := emitNodeS
        { id := importId, type := "Import"
          name := Option.some target
          aliasName := al.asname
          import_type := Option.some "direct"
          lineno := Option.some lineno
          is_stdlib := Option.some (isStdlib target)
          is_relative := Option.some false
          level := Option.some 0 } s
      let s := emitEdgeS
        { type := "IMPORTS", from_id := s.fileId
          to_id := Option.some importId, lineno := Option.some lineno } s
      visitImportAliases lineno rest (bumpStat "imports" s)

/-- Loop body of `visit_ImportFrom` (source lines 266-292). -/
def visitImportFromAliases (lineno : Nat) (module : String) (level : Nat) :
    List ImportAlias → XState → XState
  | [], s => s
  | al :: rest, s =>
      let target := if module = "" then al.name else module ++ "." ++ al.name
      let importAlias := al.asname.getD al.name
      let s := { s with importsMap := dictSet s.importsMap importAlias target }
      let importId := stable_id [s.fileId, "import", target, toString lineno]
      let s := emitNodeS
        { id := importId, type := "Import"
          name := Option.some al.name
          module := Option.some module
          full_name := Option.some target
          aliasName := al.asname
          import_type := Option.some "from"
          level := Option.some level
          is_relative := Option.some (decide (0 < level))
          lineno := Option.some lineno
          is_stdlib := Option.some (if module = "" then false else isStdlib module) } s
      let s := emitEdgeS
        { type := "IMPORTS", from_id := s.fileId
          to_id := Option.some importId, lineno := Option.some lineno } s
      visitImportFromAliases lineno module level rest (bumpStat "imports" s)

/-- `_get_source_snippet` (source line 412) with its default `max_lines=10`. -/
def getSourceSnippet (src : String) (lineno endLineno : Nat) : String :=
  let lines := pySplitlines src
  let start := lineno - 1
  let stop := min lines.length endLineno
  let snippetLines := (lines.drop start).take (stop - start)
  let snippetLines :=
    if snippetLines.length > 10 then snippetLines.take 10 ++ ["..."]
    else snippetLines
  pyJoin "\n" snippetLines

/-- The `dec_info` dict built for one decorator expression
(source lines 300-313). -/
def decInfoOf (dec : Expr) : DecInfo :=
  match dec with
  | .name _ i => ⟨Option.some i, [], []⟩
  | .call _ f as ks =>
      let nm := match f with
        | .name _ i => Option.some i
        | .attr l v a => Option.some (getFullName (.attr l v a))
        | _ => Option.none
      ⟨nm, as.map safeUnparse, ks.map (fun kv => (kv.1, safeUnparse kv.2))⟩
  | other => ⟨safeUnparse other, [], []⟩

/-- `_extract_decorators` (source line 296): build each decorator's info
dict and, when it has a name, emit a Decorator node keyed by the
decorator's own line number. -/
def extractDecoratorsS : List Expr → XState → (List DecInfo × XState)
  | [], s => ([], s)
  | dec :: rest, s =>
      let info := decInfoOf dec
      let s := match info.name with
        | Option.some n =>
            let decId := stable_id [s.fileId, "decorator", n, toString dec.linenoOf]
            bumpStat "decorators" (emitNodeS
              { id := decId, type := "Decorator", name := Option.some n
                lineno := Option.some dec.linenoOf
                args := Option.some info.args
                kwargs := Option.some info.kwargs } s)
        | Option.none => s
      let r := extractDecoratorsS rest s
      (info :: r.1, r.2)

/-- `_extract_parameters` (source line 331). Indexing `node.defaults[i -
defaults_offset]` is guarded by `i >= defaults_offset`, which keeps the
index in range for every input, so the `getD` fallback is unreachable. -/
def extractParameters (a : Args) : List ParamRec :=
  let defaultsOffset : Int := (a.args.length : Int) - a.defaults.length
  let params := a.args.enum.map (fun iarg =>
    let i : Nat := iarg.1
    let default : Option String :=
      if (i : Int) ≥ defaultsOffset then
        match a.defaults.get? ((i : Int) - defaultsOffset).toNat with
        | Option.some d => safeUnparse d
        | Option.none => Option.none
      else Option.none
    ParamRec.mk iarg.2.arg (iarg.2.ann.bind safeUnparse) "positional" default i)
  let params := params ++
    (match a.vararg with
      | Option.some v =>
          [ParamRec.mk v.arg (v.ann.bind safeUnparse) "vararg" Option.none
            params.length]
      | Option.none => [])
  let kwDefaultsMap : List (String × Option String) :=
    (a.kwonlyargs.zip a.kw_defaults).filterMap (fun kwd =>
      match kwd.2 with
      | Option.some dd => Option.some (kwd.1.arg, safeUnparse dd)
      | Option.none => Option.none)
  let params := a.kwonlyargs.foldl (fun ps arg =>
    ps ++ [ParamRec.mk arg.arg (arg.ann.bind safeUnparse) "keyword_only"
      (match kwDefaultsMap.find? (fun kv => kv.1 == arg.arg) with
        | Option.some kv => kv.2
        | Option.none => Option.none) ps.length]) params
  let params := params ++
    (match a.kwarg with
      | Option.some v =>
          [ParamRec.mk v.arg (v.ann.bind safeUnparse) "kwarg" Option.none
            params.length]
      | Option.none => [])
  params

/-- The Parameter node + HasParameter edge loop of `_record_function`
(source lines 472-489). -/
def emitParamRecords (fnId : String) : List ParamRec → XState → XState
  | [], s => s
  | p :: rest, s =>
      let paramId := stable_id [fnId, "param", p.name]
      let s := emitNodeS
        { id := paramId, type := "Parameter", name := Option.some p.name
          param_type := p.type, kind := Option.some p.kind
          default := p.default, position := Option.some p.position } s
      let s := emitEdgeS
        { type := "HAS_PARAMETER", from_id := fnId
          to_id := Option.some paramId, position := Option.some p.position } s
      emitParamRecords fnId rest s

/-- The Decorates edge loop of `_record_function` (source lines 491-499).
Faithfully to the source, the edge's `from_id` recomputes the decorator id
with `node.lineno` — the line of the `def`, not of the decorator. -/
def emitDecoratesEdges (fnId : String) (lineno : Nat) :
    List DecInfo → XState → XState
  | [], s => s
  | d :: rest, s =>
      let s := match d.name with
        | Option.some n =>
            let decId := stable_id [s.fileId, "decorator", n, toString lineno]
            emitEdgeS
              { type := "DECORATES", from_id := decId
                to_id := Option.some fnId, lineno := Option.some lineno } s
        | Option.none => s
      emitDecoratesEdges fnId lineno rest s

/-- `_record_function` (source line 425): returns the function id and the
state after all its emissions. -/
def recordFunctionS (lineno endLineno : Nat) (isAsync : Bool) (name : String)
    (ags : Args) (body : List Stmt) (decoratorList : List Expr)
    (returns : Option Expr) (s : XState) : String × XState :=
  let isMethod := s.currentClass.isSome
  let parentScope := getCurrentScope s
  let fnId := stable_id [s.fileId, "function", name, toString lineno]
  let dres := extractDecoratorsS decoratorList s
  let decorators := dres.1
  let s := dres.2
  let parameters := extractParameters ags
  let metrics :=
    computeMetrics lineno endLineno ags body decoratorList returns isAsync name
  let snippet := getSourceSnippet s.src lineno endLineno
  let doc := getDocstring body
  let returnType := returns.bind safeUnparse
  let s := { s with definedNames := dictSet s.definedNames name fnId }
  let nodeType := if isMethod then "Method" else "Function"
  let s := emitNodeS
    { id := fnId, type := nodeType, name := Option.some name
      qualified_name := Option.some
        (if isMethod then s.currentClass.getD "" ++ "." ++ name else name)
      is_async := Option.some isAsync
      is_method := Option.some isMethod
      is_static := Option.some
        (decorators.any (fun d => d.name == Option.some "staticmethod"))
      is_class_method := Option.some
        (decorators.any (fun d => d.name == Option.some "classmethod"))
      is_property := Option.some
        (decorators.any (fun d => d.name == Option.some "property"))
      is_private := Option.some (pyStartsWith name "_" && !(pyStartsWith name "__"))
      is_magic := Option.some (pyStartsWith name "__" && pyEndsWith name "__")
      decorators := Option.some (decorators.map (·.name))
      decorator_details := Option.some decorators
      parameters := Option.some parameters
      return_type := returnType
      lineno := Option.some lineno
      end_lineno := Option.some endLineno
      docstring := doc
      snippet := Option.some (if snippet.length > 500 then pyTake snippet 500 else snippet)
      metrics := Option.some metrics } s
  let s := emitEdgeS
    { type := "DEFINES", from_id := parentScope, to_id := Option.some fnId
      relationship := Option.some
        (if isMethod then "contains_method" else "contains_function") } s
  let s := emitParamRecords fnId parameters s
  let s := emitDecoratesEdges fnId lineno decorators s
  let s := bumpStat (if isMethod then "methods" else "functions") s
  (fnId, s)

/-- The rendered base list of `visit_ClassDef` (source line 532): rendered
texts, keeping only truthy (non-empty) renderings. -/
def renderedBases : List Expr → List String
  | [] => []
  | b :: rest =>
      match safeUnparse b with
      | Option.some r =>
          if r = "" then renderedBases rest else r :: renderedBases rest
      | Option.none => renderedBases rest

/-- The class decorator-name list of `visit_ClassDef`
(source lines 533-540). -/
def classDecoratorNames : List Expr → List String
  | [] => []
  | dec :: rest =>
      match dec with
      | .name _ i => i :: classDecoratorNames rest
      | other =>
          match safeUnparse other with
          | Option.some n =>
              if n = "" then classDecoratorNames rest
              else n :: classDecoratorNames rest
          | Option.none => classDecoratorNames rest

def isFunctionDefStmt : Stmt → Bool
  | .functionDef .. => true
  | _ => false

def isAssignStmt : Stmt → Bool
  | .assign .. => true
  | _ => false

/-- The Inherits edge loop of `visit_ClassDef` (source lines 570-584). -/
def emitInheritEdges (classId : String) : List String → XState → XState
  | [], s => s
  | base :: rest, s =>
      let s := match dictGet s.definedNames base with
        | Option.some bid =>
            emitEdgeS
              { type := "INHERITS", from_id := classId
                to_id := Option.some bid, base_name := Option.some base } s
        | Option.none =>
            emitEdgeS
              { type := "INHERITS", from_id := classId
                to_name := Option.some base, inferred := Option.some true } s
      emitInheritEdges classId rest s

/-- The emissions of `visit_ClassDef` (source line 524) before the
recursive descent into the class body: returns the class id and the new
state. -/
def recordClassS (lineno endLineno : Nat) (name : String) (bases : List Expr)
    (body : List Stmt) (decoratorList : List Expr) (s : XState) :
    String × XState :=
  let parentScope := getCurrentScope s
  let classId := stable_id [s.filePath, "class", name, toString lineno]
  let snippet := getSourceSnippet s.src lineno endLineno
  let doc := getDocstring body
  let basesR := renderedBases bases
  let decoratorsR := classDecoratorNames decoratorList
  let numMethods := (body.filter isFunctionDefStmt).length
  let numClassVars := (body.filter isAssignStmt).length
  let s := { s with definedNames := dictSet s.definedNames name classId }
  let s := emitNodeS
    { id := classId, type := "Class", name := Option.some name
      lineno := Option.some lineno
      end_lineno := Option.some endLineno
      docstring := doc
      snippet := Option.some (if snippet.length > 500 then pyTake snippet 500 else snippet)
      bases := Option.some basesR
      decorators := Option.some (decoratorsR.map Option.some)
      num_methods := Option.some numMethods
      num_class_vars := Option.some numClassVars
      is_private := Option.some (pyStartsWith name "_")
      is_abstract := Option.some
        (basesR.contains "ABC" || basesR.contains "abc.ABC") } s
  let s := emitEdgeS
    { type := "DEFINES", from_id := parentScope, to_id := Option.some classId
      relationship := Option.some "contains_class" } s
  let s := emitInheritEdges classId basesR s
  let s := bumpStat "classes" s
  (classId, s)

/-- Python `str(value)` for the modelled constants. -/
def pyStr : Const → String
  | .int n => toString n
  | .str s => s
  | .bool b => if b then "True" else "False"
  | .none => "None"

/-- Python `type(value).__name__` for the modelled constants. -/
def pyTypeName : Const → String
  | .int _ => "int"
  | .str _ => "str"
  | .bool _ => "bool"
  | .none => "NoneType"

/-- The per-target emissions of `visit_Assign` (source lines 600-639);
the scope and `is_global` flag are computed once before the loop. -/
def visitAssignTargetsS (scope : String) (isGlobal : Bool) (lineno : Nat)
    (value : Expr) : List Expr → XState → XState
  | [], s => s
  | t :: rest, s =>
      let s := match t with
        | .name _ varName =>
            let isConstant := pyIsUpper varName
            let isPrivate := pyStartsWith varName "_"
            let varId := stable_id [scope, "var", varName, toString lineno]
            let rendered : Option String × String :=
              match value with
              | .const _ c => (Option.some (pyTake (pyStr c) 100), pyTypeName c)
              | other => (safeUnparse other, "complex")
            let s := emitNodeS
              { id := varId, type := "Variable", name := Option.some varName
                value := rendered.1
                value_type := Option.some rendered.2
                lineno := Option.some lineno
                is_global := Option.some isGlobal
                is_constant := Option.some isConstant
                is_private := Option.some isPrivate
                scope := Option.some (if isGlobal then "global" else "local") } s
            let s := emitEdgeS
              { type := "DEFINES", from_id := scope
                to_id := Option.some varId
                relationship := Option.some "defines_variable" } s
            let s := { s with scopeVars := s.scopeVars ++ [(scope, varName)] }
            let s := { s with definedNames := dictSet s.definedNames varName varId }
            bumpStat "variables" s
        | _ => s
      visitAssignTargetsS scope isGlobal lineno value rest s

/-- The emissions of `visit_Assign` before its `generic_visit`. -/
def visitAssignS (lineno : Nat) (targets : List Expr) (value : Expr)
    (s : XState) : XState :=
  let scope := getCurrentScope s
  visitAssignTargetsS scope (scope == s.fileId) lineno value targets s

/-- The edge emission of `visit_Call` (source lines 643-679), before its
`generic_visit`. The `if callee and caller` condition checks string
truthiness (non-empty); `to_id` is attached only when the name-table value
is truthy. -/
def emitCallS (lineno : Nat) (func : Expr) (numArgs numKwargs : Nat)
    (s : XState) : XState :=
  let callee : Option String :=
    match func with
    | .name _ i => Option.some i
    | .attr l v a => Option.some (getFullName (.attr l v a))
    | _ => Option.none
  let caller := getCurrentScope s
  match callee with
  | Option.some c =>
      if c ≠ "" ∧ caller ≠ "" then
        let firstPart := (pySplitOnChar '.' c).headD ""
        let resolvedName :=
          match dictGet s.importsMap firstPart with
          | Option.some origin =>
              if pyContainsChar c '.' then origin ++ pyDrop c firstPart.length
              else origin
          | Option.none => c
        let targetId := dictGet s.definedNames firstPart
        let toId : Option String :=
          match targetId with
          | Option.some t => if t = "" then Option.none else Option.some t
          | Option.none => Option.none
        let edge : EdgeRec :=
          { type := "CALLS", from_id := caller, to_name := Option.some c
            lineno := Option.some lineno
            resolved_name :=
              if resolvedName ≠ c then Option.some resolvedName else Option.none
            num_args := Option.some numArgs
            num_kwargs := Option.some numKwargs
            inferred := Option.some targetId.isNone
            to_id := toId }
        bumpStat "calls" (emitEdgeS edge s)
      else s
  | Option.none => s

/-- The edge emission of `visit_Raise` (source line 683), before its
`generic_visit`. -/
def emitRaiseS (lineno : Nat) (exc : Option Expr) (s : XState) : XState :=
  match exc, s.currentFunction with
  | Option.some e, Option.some fn =>
      (match safeUnparse e with
        | Option.some excType =>
            if excType = "" then s
            else emitEdgeS
              { type := "RAISES", from_id := fn
                to_name := Option.some excType
                lineno := Option.some lineno } s
        | Option.none => s)
  | _, _ => s

/-- The edge emission of `visit_Return` (source line 696), before its
`generic_visit`. -/
def emitReturnS (lineno : Nat) (value : Option Expr) (s : XState) : XState :=
  match value, s.currentFunction with
  | Option.some v, Option.some fn =>
      (match safeUnparse v with
        | Option.some returnExpr =>
            if returnExpr = "" then s
            else emitEdgeS
              { type := "RETURNS", from_id := fn
                to_name := Option.some returnExpr
                lineno := Option.some lineno } s
        | Option.none => s)
  | _, _ => s

/- ============================================================
   The recursive traversal (`visit` / `generic_visit`)
   ============================================================ -/

/-- The outcome of running a piece of the traversal: like Python, state
mutations performed before an exception persist, so both outcomes carry
the state. -/
inductive TraceRes where
  | ok (s : XState)
  | exn (s : XState)
deriving DecidableEq, Repr

/-- Sequencing of traversal steps: an exception short-circuits, keeping the
state at the raise point. -/
def rbind (r : TraceRes) (k : XState → TraceRes) : TraceRes :=
  match r with
  | .ok s => k s
  | .exn s => .exn s

/-- The state carried by either outcome. -/
def TraceRes.state : TraceRes → XState
  | .ok s => s
  | .exn s => s

def TraceRes.isOk : TraceRes → Bool
  | .ok _ => true
  | .exn _ => false

mutual
/-- `visit` dispatch on expressions: `visit_Call` for calls, otherwise
`generic_visit` (visit all child nodes in field order). -/
def visitExpr (e : Expr) (s : XState) : TraceRes :=
  match e with
  | .name _ _ => .ok s
  | .const _ _ => .ok s
  | .attr _ v _ => visitExpr v s
  | .boolOp _ _ vs => visitExprList vs s
  | .call l f as ks =>
      let s := emitCallS l f as.length ks.length s
      rbind (visitExpr f s) (fun s =>
        rbind (visitExprList as s) (fun s => visitKwList ks s))

def visitExprList (es : List Expr) (s : XState) : TraceRes :=
  match es with
  | [] => .ok s
  | e :: rest => rbind (visitExpr e s) (fun s => visitExprList rest s)

def visitKwList (ks : List (Option String × Expr)) (s : XState) : TraceRes :=
  match ks with
  | [] => .ok s
  | (_, v) :: rest => rbind (visitExpr v s) (fun s => visitKwList rest s)
end

def visitOptExprT (o : Option Expr) (s : XState) : TraceRes :=
  match o with
  | Option.some e => visitExpr e s
  | Option.none => .ok s

/-- `generic_visit` over a parameter list: visit each annotation. -/
def visitArgAnnList (l : List Arg) (s : XState) : TraceRes :=
  match l with
  | [] => .ok s
  | a :: rest => rbind (visitOptExprT a.ann s) (fun s => visitArgAnnList rest s)

def visitOptExprListT (l : List (Option Expr)) (s : XState) : TraceRes :=
  match l with
  | [] => .ok s
  | o :: rest => rbind (visitOptExprT o s) (fun s => visitOptExprListT rest s)

/-- `generic_visit` over an `ast.arguments` node, in its field order:
`args`, `vararg`, `kwonlyargs`, `kw_defaults`, `kwarg`, `defaults`. -/
def visitArgsNode (a : Args) (s : XState) : TraceRes :=
  rbind (visitArgAnnList a.args s) (fun s =>
  rbind (match a.vararg with
          | Option.some v => visitOptExprT v.ann s
          | Option.none => .ok s) (fun s =>
  rbind (visitArgAnnList a.kwonlyargs s) (fun s =>
  rbind (visitOptExprListT a.kw_defaults s) (fun s =>
  rbind (match a.kwarg with
          | Option.some v => visitOptExprT v.ann s
          | Option.none => .ok s) (fun s =>
  visitExprList a.defaults s)))))

mutual
/-- `visit` dispatch on statements. Cases with a `visit_X` method follow
that method (emissions, context pushes, `generic_visit`, context pops —
pops are skipped when the recursion raises, as in Python); the remaining
cases are `generic_visit` in AST field order. `fault` raises. -/
def visitStmt (st : Stmt) (s : XState) : TraceRes :=
  match st with
  | .functionDef ln el ia nm ags bd dl rt =>
      let prevFunction := s.currentFunction
      let r := recordFunctionS ln el ia nm ags bd dl rt s
      let s2 := { r.2 with currentFunction := Option.some r.1
                           currentScopeStack := r.1 :: r.2.currentScopeStack }
      rbind
        (rbind (visitArgsNode ags s2) (fun s =>
          rbind (visitStmtList bd s) (fun s =>
            rbind (visitExprList dl s) (fun s => visitOptExprT rt s))))
        (fun s3 =>
          .ok { s3 with currentScopeStack := s3.currentScopeStack.tail
                        currentFunction := prevFunction })
  | .classDef ln el nm bs bd dl =>
      let prevClass := s.currentClass
      let r := recordClassS ln el nm bs bd dl s
      let s2 := { r.2 with currentClass := Option.some nm
                           currentScopeStack := r.1 :: r.2.currentScopeStack }
      rbind
        (rbind (visitExprList bs s2) (fun s =>
          rbind (visitStmtList bd s) (fun s => visitExprList dl s)))
        (fun s3 =>
          .ok { s3 with currentScopeStack := s3.currentScopeStack.tail
                        currentClass := prevClass })
  | .assign ln ts v =>
      let s := visitAssignS ln ts v s
      rbind (visitExprList ts s) (fun s => visitExpr v s)
  | .importStmt ln ns => .ok (visitImportAliases ln ns s)
  | .importFrom ln m ns lv => .ok (visitImportFromAliases ln (m.getD "") lv ns s)
  | .ret ln v =>
      let s := emitReturnS ln v s
      visitOptExprT v s
  | .raiseStmt ln e =>
      let s := emitRaiseS ln e s
      visitOptExprT e s
  | .ifStmt _ t b o =>
      rbind (visitExpr t s) (fun s =>
        rbind (visitStmtList b s) (fun s => visitStmtList o s))
  | .whileStmt _ t b o =>
      rbind (visitExpr t s) (fun s =>
        rbind (visitStmtList b s) (fun s => visitStmtList o s))
  | .forStmt _ tg it b o =>
      rbind (visitExpr tg s) (fun s =>
        rbind (visitExpr it s) (fun s =>
          rbind (visitStmtList b s) (fun s => visitStmtList o s)))
  | .withStmt _ c b =>
      rbind (visitExpr c s) (fun s => visitStmtList b s)
  | .tryStmt _ b hs o f =>
      rbind (visitStmtList b s) (fun s =>
        rbind (visitHandlerList hs s) (fun s =>
          rbind (visitStmtList o s) (fun s => visitStmtList f s)))
  | .assertStmt _ t => visitExpr t s
  | .exprStmt _ v => visitExpr v s
  | .pass _ => .ok s
  | .fault _ => .exn s

def visitStmtList (l : List Stmt) (s : XState) : TraceRes :=
  match l with
  | [] => .ok s
  | st :: rest => rbind (visitStmt st s) (fun s => visitStmtList rest s)

def visitHandlerList (l : List Handler) (s : XState) : TraceRes :=
  match l with
  | [] => .ok s
  | ⟨_, t, b⟩ :: rest =>
      rbind (rbind (visitOptExprT t s) (fun s => visitStmtList b s))
        (fun s => visitHandlerList rest s)
end

/- ============================================================
   `extract_file` and the orchestrator's per-file loop
   ============================================================ -/

/-- The input of one `extract_file` call: the text read failed, the parse
failed, or parsing succeeded with the given raw text and module body. -/
inductive FileInput where
  | readError
  | parseError
  | source (src : String) (tree : List Stmt)

/-- `extract_file` (source line 710): empty results on read or parse
failure; otherwise run `record_file_node` and the traversal, returning the
accumulated records whether or not the traversal raised (the `try` around
`extractor.visit`). -/
def extract_file (repoRoot filePath : String) (input : FileInput) :
    List NodeRec × List EdgeRec × List (String × Nat) :=
  match input with
  | .readError => ([], [], [])
  | .parseError => ([], [], [])
  | .source src tree =>
      let s0 := recordFileNodeS (initState repoRoot filePath src)
      match visitStmtList tree s0 with
      | .ok s => (s.nodes, s.edges, s.stats)
      | .exn s => (s.nodes, s.edges, s.stats)

/-- The per-file loop of `analyze_repository` (source lines 1150-1164):
count a unit as an error exactly when it produced no nodes and no edges;
always continue with the remaining units. -/
def analyzeLoopErrors (repoRoot : String) :
    List (String × FileInput) → Nat
  | [] => 0
  | (p, input) :: rest =>
      let r := extract_file repoRoot p input
      (if r.1.isEmpty ∧ r.2.1.isEmpty then 1 else 0) +
        analyzeLoopErrors repoRoot rest

/- ============================================================
   Directory walker (`build_directory_tree`, `find_python_files`)
   and the `main` wiring of the exclusion set
   ============================================================ -/

/-- A file-system subtree: a directory with its name, subdirectories and
plain file names. `os.walk` is modelled as the evident top-down traversal
with in-place pruning of the directory-name list. -/
inductive DirTree where
  | node (dirName : String) (subdirs : List DirTree) (files : List String)

def DirTree.dirName : DirTree → String
  | .node n _ _ => n

/-- The pruning filter applied to `dirnames` in both walkers
(source lines 760 and 826): drop excluded names and dot-prefixed names. -/
def keepDir (exclude : List String) (d : DirTree) : Bool :=
  !(exclude.contains d.dirName) && !(pyStartsWith d.dirName ".")

/-- A retained Python file: `.py` suffix and no leading dot
(source lines 805 and 828). -/
def keepPyFile (f : String) : Bool :=
  pyEndsWith f ".py" && !(pyStartsWith f ".")

mutual
/-- One `os.walk` iteration of `find_python_files` (source line 825) at a
directory with the given path, followed by the walk of its retained
subdirectories. -/
def findPyWalk (exclude : List String) (path : String) : DirTree → List String
  | .node _ subdirs files =>
      (files.filter keepPyFile).map (fun f => path ++ "/" ++ f) ++
        findPyWalkList exclude path subdirs

def findPyWalkList (exclude : List String) (path : String) :
    List DirTree → List String
  | [] => []
  | d :: rest =>
      (if keepDir exclude d then
        findPyWalk exclude (path ++ "/" ++ d.dirName) d
      else []) ++ findPyWalkList exclude path rest
end

/-- `find_python_files` (source line 819) with its built-in default
exclusion list applied only when the argument is `None`. -/
def find_python_files (rootPath : String) (root : DirTree)
    (exclude : Option (List String)) : List String :=
  let excl := match exclude with
    | Option.none => [".git", "__pycache__", "node_modules", ".venv", "venv"]
    | Option.some l => l
  findPyWalk excl rootPath root

mutual
/-- One `os.walk` iteration of `build_directory_tree` (source line 758):
the `for dirname in dirnames` loop emits each retained subdirectory's
Directory node and Contains edge, then the file loop emits Contains edges
to the ids the extractor will derive for the same paths, then the walk
continues into the retained subdirectories. -/
def bdtWalk (exclude : List String) (rootPath path id : String) :
    DirTree → List NodeRec × List EdgeRec
  | .node _ subdirs files =>
      let subdirDecls := bdtSubdirDecls exclude rootPath path id subdirs
      let fileEdges := (files.filter keepPyFile).map (fun f =>
        EdgeRec.mk "CONTAINS" id (Option.some (stable_id [path ++ "/" ++ f]))
          Option.none Option.none Option.none (Option.some "contains_file")
          Option.none Option.none Option.none Option.none Option.none
          Option.none)
      let rec_ := bdtWalkList exclude rootPath path subdirs
      (subdirDecls.1 ++ rec_.1, subdirDecls.2 ++ fileEdges ++ rec_.2)

/-- The `for dirname in dirnames` loop body (source lines 784-802). -/
def bdtSubdirDecls (exclude : List String) (rootPath path id : String) :
    List DirTree → List NodeRec × List EdgeRec
  | [] => ([], [])
  | d :: rest =>
      let r := bdtSubdirDecls exclude rootPath path id rest
      if keepDir exclude d then
        let dirPath := path ++ "/" ++ d.dirName
        let dirId := stable_id [dirPath]
        ({ id := dirId, type := "Directory", name := Option.some d.dirName
           path := Option.some dirPath
           relpath := Option.some (relativeTo dirPath rootPath) } :: r.1,
         { type := "CONTAINS", from_id := id, to_id := Option.some dirId
           relationship := Option.some "contains_directory" } :: r.2)
      else r

def bdtWalkList (exclude : List String) (rootPath path : String) :
    List DirTree → List NodeRec × List EdgeRec
  | [] => ([], [])
  | d :: rest =>
      let r := bdtWalkList exclude rootPath path rest
      if keepDir exclude d then
        let dirPath := path ++ "/" ++ d.dirName
        let w := bdtWalk exclude rootPath dirPath (stable_id [dirPath]) d
        (w.1 ++ r.1, w.2 ++ r.2)
      else r
end

/-- `build_directory_tree` (source line 738): Repository node for the root,
then the walk; its built-in default exclusion list applies only when the
argument is `None`. -/
def build_directory_tree (rootPath : String) (root : DirTree)
    (exclude : Option (List String)) : List NodeRec × List EdgeRec :=
  let excl := match exclude with
    | Option.none =>
        [".git", "__pycache__", "node_modules", ".venv", "venv",
         ".tox", "build", "dist", ".eggs"]
    | Option.some l => l
  let repoId := stable_id [rootPath]
  let repoNode : NodeRec :=
    { id := repoId, type := "Repository", name := Option.some (pathName rootPath)
      path := Option.some rootPath }
  let w := bdtWalk excl rootPath rootPath repoId root
  (repoNode :: w.1, w.2)

/-- The `main` wiring `exclude=args.exclude or []` (source line 1330):
Python `or` turns an absent (`None`) or empty `--exclude` into `[]`, and
`analyze_repository` forwards that list — never `None` — to both walkers. -/
def mainExclude (argsExclude : Option (List String)) : List String :=
  match argsExclude with
  | Option.none => []
  | Option.some l => if l.isEmpty then [] else l

/- ============================================================
   Neo4j loader: `batch_insert_nodes` / `batch_insert_edges`
   ============================================================ -/

/-- A property value carried on an inserted relationship. -/
inductive PropVal where
  | s (v : String)
  | n (v : Nat)
  | b (v : Bool)
deriving DecidableEq, Repr

/-- A normalized edge as submitted to the store by `batch_insert_edges`
(source lines 1026-1050): the resolved `from`/`to` endpoint keys and the
remaining non-`None` attributes. -/
structure NormEdge where
  fromKey : Option String
  toKey : Option String
  props : List (String × PropVal)
deriving DecidableEq, Repr

def optProp (k : String) (v : Option PropVal) : List (String × PropVal) :=
  match v with
  | Option.some x => [(k, x)]
  | Option.none => []

/-- The normalization of one edge record (source lines 1027-1050):
`from` from `from_id` (or `from`), `to` from `to_id` (or `to`), and every
other non-`None` key except `type`/`to_name` as a property. -/
def normalizeEdge (e : EdgeRec) : NormEdge :=
  { fromKey := Option.some e.from_id
    toKey :=
      match e.to_id with
      | Option.some t => Option.some t
      | Option.none => e.toKey
    props :=
      optProp "lineno" (e.lineno.map PropVal.n) ++
      optProp "relationship" (e.relationship.map PropVal.s) ++
      optProp "resolved_name" (e.resolved_name.map PropVal.s) ++
      optProp "num_args" (e.num_args.map PropVal.n) ++
      optProp "num_kwargs" (e.num_kwargs.map PropVal.n) ++
      optProp "inferred" (e.inferred.map PropVal.b) ++
      optProp "base_name" (e.base_name.map PropVal.s) ++
      optProp "position" (e.position.map PropVal.n) }

/-- Does the `MATCH (from {id}) MATCH (to {id}) CREATE` query create a
relationship for this record? The store's per-kind uniqueness constraints
make ids unique, so each present endpoint matches at most one node; a
missing match creates nothing and raises nothing. -/
def normMatched (ids : List String) (r : NormEdge) : Bool :=
  (match r.fromKey with
    | Option.some f => ids.contains f
    | Option.none => false) &&
  (match r.toKey with
    | Option.some t => ids.contains t
    | Option.none => false)

/-- Whether an edge record is "direct" (source line 1019): it carries a
`to_id` or a `to` key. -/
def edgeHasDest (e : EdgeRec) : Bool :=
  e.to_id.isSome || e.toKey.isSome

/-- The batched insertion loop over one type's direct edges
(source lines 1023-1071). `accepts` abstracts whether the store accepts a
record (`session.run` raises on a malformed one; the whole auto-commit
query is atomic, so a failed batch creates nothing). On failure every
record of the batch is retried alone; a record rejected again is skipped.
The returned trace lists every record passed to `session.run`, batch
attempts included. Python's `range` would reject a zero step, hence the
`max bs 1`; only positive batch sizes occur. -/
def edgeChunksInsert (accepts : NormEdge → Bool) (ids : List String)
    (bs : Nat) (l : List NormEdge) : Nat × List NormEdge :=
  match h : l with
  | [] => (0, [])
  | _ :: _ =>
      let b := max bs 1
      let batch := l.take b
      let first :=
        if batch.all accepts then (batch.countP (normMatched ids), batch)
        else (batch.countP (fun r => accepts r && normMatched ids r),
              batch ++ batch)
      let r := edgeChunksInsert accepts ids bs (l.drop b)
      (first.1 + r.1, first.2 ++ r.2)
termination_by l.length
decreasing_by simp [h, List.length_drop]

/-- The outcome of `batch_insert_edges`: `inserted` relationships created,
`skipped` external references, and the trace of submitted records. -/
structure EdgeLoadResult where
  inserted : Nat
  skipped : Nat
  submitted : List NormEdge
deriving Repr

/-- The per-type loop of `batch_insert_edges` (source lines 1015-1076). -/
def bieGo (accepts : NormEdge → Bool) (ids : List String) (bs : Nat)
    (edges : List EdgeRec) : List String → EdgeLoadResult
  | [] => ⟨0, 0, []⟩
  | k :: rest =>
      let typeEdges := edges.filter (fun e => e.type == k)
      let direct := typeEdges.filter edgeHasDest
      let inferred := typeEdges.length - direct.length
      let c := edgeChunksInsert accepts ids bs (direct.map normalizeEdge)
      let r := bieGo accepts ids bs edges rest
      ⟨c.1 + r.inserted, inferred + r.skipped, c.2 ++ r.submitted⟩

/-- The sorted distinct edge types (`sorted(edges_by_type.keys())`,
source line 1015). -/
def sortedEdgeTypes (edges : List EdgeRec) : List String :=
  ((edges.map (fun e => e.type)).dedup).insertionSort (· ≤ ·)

/-- `batch_insert_edges` (source line 1003): group by type, count and skip
the non-direct (inferred/external) edges, batch-insert the direct ones. -/
def batch_insert_edges (accepts : NormEdge → Bool) (ids : List String)
    (edges : List EdgeRec) (bs : Nat) : EdgeLoadResult :=
  bieGo accepts ids bs edges (sortedEdgeTypes edges)

/-- The batched insertion loop over one type's nodes
(source lines 966-996): a failed batch is retried record by record;
records the store still rejects are dropped. The cleaning step (dropping
`None` values, serializing nested values) is a pure per-record
transformation and is absorbed into the acceptance predicate. -/
def nodeChunksInsert (accepts : NodeRec → Bool) (bs : Nat)
    (l : List NodeRec) : Nat :=
  match h : l with
  | [] => 0
  | _ :: _ =>
      let b := max bs 1
      let batch := l.take b
      (if batch.all accepts then batch.length else batch.countP accepts) +
        nodeChunksInsert accepts bs (l.drop b)
termination_by l.length
decreasing_by simp [h, List.length_drop]

/-- The fixed `type_order` of `batch_insert_nodes` (source lines 953-957);
a record whose type is not in the list is silently not inserted. -/
def nodeTypeOrder : List String :=
  ["Repository", "Directory", "File", "Module", "Class", "Function",
   "Method", "Variable", "Parameter", "Decorator", "Import"]

/-- The per-type loop of `batch_insert_nodes` (source lines 959-996). -/
def binGo (accepts : NodeRec → Bool) (bs : Nat) (nodes : List NodeRec) :
    List String → Nat
  | [] => 0
  | t :: rest =>
      nodeChunksInsert accepts bs (nodes.filter (fun n => n.type == t)) +
        binGo accepts bs nodes rest

/-- `batch_insert_nodes` (source line 940): group nodes by type and insert
the groups in the fixed type order, with per-record fallback on a failed
batch. -/
def batch_insert_nodes (accepts : NodeRec → Bool) (nodes : List NodeRec)
    (bs : Nat) : Nat :=
  binGo accepts bs nodes nodeTypeOrder

/- ============================================================
   Spec-side definitions (stated from the claims' words, for
   comparison against the source-derived definitions above)
   ============================================================ -/

/-- Claim C1's counted node kinds, in the claim's words: a conditional
(`if`), loop (`for`/`while`), exception-handler, context-manager (`with`),
or assert node — and nothing else. -/
def claimCondNode : PyNode → Bool
  | .stmtN (.ifStmt ..) => true
  | .stmtN (.forStmt ..) => true
  | .stmtN (.whileStmt ..) => true
  | .stmtN (.withStmt ..) => true
  | .stmtN (.assertStmt ..) => true
  | .handlerN _ => true
  | _ => false

/-- Claim C1's boolean-expression term: operand count minus 1 per boolean
expression. -/
def claimBoolExcess : PyNode → Int
  | .exprN (.boolOp _ _ vs) => (vs.length : Int) - 1
  | _ => 0

/-- The complexity formula exactly as claim C1 states it. -/
def specClaimComplexity (node : Stmt) : Int :=
  1 + ((walkStmt node).countP claimCondNode : Int) +
    ((walkStmt node).map claimBoolExcess).sum

/-- Is a walked node a boolean-operator object (`ast.And`/`ast.Or`)? -/
def isOpNode : PyNode → Bool
  | .opN _ => true
  | _ => false

/-- The number of boolean-operator objects in a subtree — one per
`BoolOp`, since each `BoolOp` has exactly one `op` child. -/
def boolOpNodeCount (node : Stmt) : Nat :=
  (walkStmt node).countP isOpNode

/-- Does the `"::"` separator occur inside a string? (For claim C3's
exception clause.) -/
def hasSepChars : List Char → Bool
  | ':' :: ':' :: _ => true
  | _ :: rest => hasSepChars rest
  | [] => false

def containsSep (s : String) : Bool := hasSepChars s.data

/- ============================================================
   Definitions for the node-before-edge / to_id invariants
   ============================================================ -/

/-- The ids of the node records emitted so far, in emission order. -/
def nodeIds (s : XState) : List String := s.nodes.map (fun n => n.id)

/-- Is an edge of one of the four types claim C8 constrains? -/
def relevantC8 (e : EdgeRec) : Bool :=
  e.type == "CALLS" || e.type == "RAISES" || e.type == "RETURNS" ||
    e.type == "INHERITS"

/-- Claim C8's property of one edge: a Calls/Raises/Returns/Inherits edge
either carries a `to_id` that is an emitted node's id, or carries a
`to_name` and no `to_id`. -/
def edgeOkC8 (ids : List String) (e : EdgeRec) : Bool :=
  !(relevantC8 e) ||
    (match e.to_id with
      | Option.some t => ids.contains t
      | Option.none => e.to_name.isSome)

/-- The traversal invariant from which C8 follows: every binding of the
name table points at an emitted node, and every emitted edge satisfies
`edgeOkC8`. -/
def InvC8 (s : XState) : Prop :=
  (∀ kv ∈ s.definedNames, kv.2 ∈ nodeIds s) ∧
    (∀ e ∈ s.edges, edgeOkC8 (nodeIds s) e = true)

/-- A pure state transformation preserves the invariant and only adds
node ids. -/
def PreGood (f : XState → XState) : Prop :=
  ∀ s, InvC8 s → InvC8 (f s) ∧ nodeIds s ⊆ nodeIds (f s)

/-- A traversal outcome preserves the invariant and only adds node ids,
whether it returned or raised. -/
def ResGood (s : XState) (r : TraceRes) : Prop :=
  InvC8 r.state ∧ nodeIds s ⊆ nodeIds r.state

/- ============================================================
   Concrete inputs used to settle the claims
   ============================================================ -/

/-- `def f(): return a and b` — one boolean expression with two
operands. -/
def c1CounterBody : List Stmt :=
  [.ret 2 (Option.some (.boolOp 2 .and [.name 2 "a", .name 2 "b"]))]

/-- `@deco` (line 1) over `def f(): pass` (lines 2-3). -/
def c2DecoTree : List Stmt :=
  [.functionDef 2 3 false "f" emptyArgs [.pass 3] [.name 1 "deco"]
    Option.none]

def c2Extract : List NodeRec × List EdgeRec × List (String × Nat) :=
  extract_file "repo" "repo/m.py" (.source "@deco\ndef f():\n    pass" c2DecoTree)

/-- `from os import path as p` then `p.join(x)`. -/
def c7Tree : List Stmt :=
  [.importFrom 1 (Option.some "os") [⟨"path", Option.some "p"⟩] 0,
   .exprStmt 2 (.call 2 (.attr 2 (.name 2 "p") "join") [.name 2 "x"] [])]

def c7Extract : List NodeRec × List EdgeRec × List (String × Nat) :=
  extract_file "repo" "repo/m.py"
    (.source "from os import path as p\np.join(x)" c7Tree)

/-- A repository containing only `__pycache__/cached.py`. -/
def c9Tree : DirTree := .node "repo" [.node "__pycache__" [] ["cached.py"]] []

/-- `from os import path, path as p` — one statement binding the same
imported target twice. -/
def c10Tree : List Stmt :=
  [.importFrom 1 (Option.some "os")
    [⟨"path", Option.none⟩, ⟨"path", Option.some "p"⟩] 0]

def c10Extract : List NodeRec × List EdgeRec × List (String × Nat) :=
  extract_file "repo" "repo/m.py"
    (.source "from os import path, path as p" c10Tree)

/- ============================================================
   Theorems
   ============================================================ -/

theorem contribSplit (n : PyNode) :
    complexityContrib n =
      (if claimCondNode n then (1 : Int) else 0) + claimBoolExcess n +
        (if isOpNode n then (1 : Int) else 0) := by
  cases n with
  | stmtN s =>
      cases s <;>
        simp [complexityContrib, claimCondNode, claimBoolExcess, isOpNode]
  | exprN e =>
      cases e <;>
        simp [complexityContrib, claimCondNode, claimBoolExcess, isOpNode]
  | handlerN h =>
      simp [complexityContrib, claimCondNode, claimBoolExcess, isOpNode]
  | opN k =>
      simp [complexityContrib, claimCondNode, claimBoolExcess, isOpNode]

theorem sumContribSplit (l : List PyNode) :
    (l.map complexityContrib).sum =
      (l.countP claimCondNode : Int) + (l.map claimBoolExcess).sum +
        (l.countP isOpNode : Int) := by
  induction l with
  | nil => simp
  | cons n rest ih =>
      simp only [List.map_cons, List.sum_cons, List.countP_cons, ih,
        contribSplit n]
      rcases hc : claimCondNode n <;> rcases ho : isOpNode n <;>
        simp [hc, ho] <;> push_cast <;> ring

/-- C1 (amended): the complexity recorded in a function's metrics equals
1, plus one per conditional/loop/exception-handler/context-manager/assert
node, plus (operand count − 1) per boolean expression, **plus one more per
boolean expression** — the `isinstance` tuple of `calculate_complexity`
also matches the `ast.And`/`ast.Or` operator object that `ast.walk` yields
once for every `BoolOp`. -/
theorem C1_complexity_amended (lineno endLineno : Nat) (ags : Args)
    (body : List Stmt) (dl : List Expr) (rt : Option Expr) (ia : Bool)
    (nm : String) :
    (computeMetrics lineno endLineno ags body dl rt ia nm).complexity =
      specClaimComplexity
        (.functionDef lineno endLineno ia nm ags body dl rt) +
        boolOpNodeCount (.functionDef lineno endLineno ia nm ags body dl rt) := by
  simp only [computeMetrics, calculate_complexity, specClaimComplexity,
    boolOpNodeCount, sumContribSplit]
  ring

/-- C1 (counterexample): for `def f(): return a and b` the recorded
complexity is 3, but the claim's formula (1 + conditionals + operand
count − 1, and nothing else) gives 2. -/
theorem C1_complexity_counterexample :
    (computeMetrics 1 2 emptyArgs c1CounterBody [] Option.none false
        "f").complexity ≠
      specClaimComplexity
        (.functionDef 1 2 false "f" emptyArgs c1CounterBody [] Option.none) := by
  decide

/-- C3 (counterexample): `stable_id("a:", "b")` and
`stable_id("a", ":b")` collide although the part lists differ and the
`"::"` separator occurs inside no part — the claim's exception clause does
not cover this collision of the joined strings. -/
theorem C3_stable_id_counterexample :
    stable_id ["a:", "b"] = stable_id ["a", ":b"] ∧
    ["a:", "b"] ≠ ["a", ":b"] ∧
    (["a:", "b", "a", ":b"].all (fun p => !containsSep p)) = true := by
  decide

theorem sepSplit : ∀ (a b t u : List Char), ':' ∉ a → ':' ∉ b →
    a ++ ':' :: ':' :: t = b ++ ':' :: ':' :: u → a = b ∧ t = u := by
  intro a
  induction a with
  | nil =>
      intro b t u _ hb h
      cases b with
      | nil => simpa using h
      | cons c cs =>
          exfalso
          simp only [List.nil_append, List.cons_append] at h
          injection h with h1 _
          exact hb (by rw [← h1]; exact List.mem_cons_self _ _)
  | cons c cs ih =>
      intro b t u ha hb h
      cases b with
      | nil =>
          exfalso
          simp only [List.nil_append, List.cons_append] at h
          injection h with h1 _
          exact ha (by rw [h1]; exact List.mem_cons_self _ _)
      | cons d ds =>
          simp only [List.cons_append] at h
          injection h with h1 h2
          have hr := ih ds t u (fun hm => ha (List.mem_cons_of_mem _ hm))
            (fun hm => hb (List.mem_cons_of_mem _ hm)) h2
          exact ⟨by rw [h1, hr.1], hr.2⟩

theorem pyJoin_cons_data (x y : String) (ys : List String) :
    (pyJoin "::" (x :: y :: ys)).data =
      x.data ++ ':' :: ':' :: (pyJoin "::" (y :: ys)).data := by
  show (x ++ "::" ++ pyJoin "::" (y :: ys)).data = _
  simp [List.append_assoc]

theorem string_eq_of_data {x y : String} (h : x.data = y.data) : x = y := by
  cases x; cases y; exact congrArg String.mk (by simpa using h)

theorem colon_mem_pyJoin (y : String) (ys : List String) (x : String)
    (h : x.data = (pyJoin "::" (y :: ys)).data) (hys : ys ≠ []) :
    ':' ∈ x.data := by
  cases ys with
  | nil => exact absurd rfl hys
  | cons z zs =>
      rw [h, pyJoin_cons_data]
      exact List.mem_append_right _ (List.mem_cons_self _ _)

theorem pyJoin_inj : ∀ (xs ys : List String), xs ≠ [] → ys ≠ [] →
    (∀ p ∈ xs, ':' ∉ p.data) → (∀ p ∈ ys, ':' ∉ p.data) →
    pyJoin "::" xs = pyJoin "::" ys → xs = ys := by
  intro xs
  induction xs with
  | nil => intro ys h; exact absurd rfl h
  | cons x xs ih =>
      intro ys _ hys hxc hyc h
      cases ys with
      | nil => exact absurd rfl hys
      | cons y ys2 =>
          cases xs with
          | nil =>
              cases ys2 with
              | nil => simpa [pyJoin] using h
              | cons z zs =>
                  exfalso
                  have hx : pyJoin "::" [x] = x := rfl
                  rw [hx] at h
                  exact hxc x (List.mem_cons_self _ _)
                    (colon_mem_pyJoin y (z :: zs) x
                      (congrArg String.data h) (by simp))
          | cons x2 xs2 =>
              cases ys2 with
              | nil =>
                  exfalso
                  have hy : pyJoin "::" [y] = y := rfl
                  rw [hy] at h
                  exact hyc y (List.mem_cons_self _ _)
                    (colon_mem_pyJoin x (x2 :: xs2) y
                      (congrArg String.data h.symm) (by simp))
              | cons y2 ys3 =>
                  have hd := congrArg String.data h
                  rw [pyJoin_cons_data x x2 xs2, pyJoin_cons_data y y2 ys3] at hd
                  have hsplit := sepSplit x.data y.data _ _
                    (hxc x (List.mem_cons_self _ _))
                    (hyc y (List.mem_cons_self _ _)) hd
                  have hxy : x = y := string_eq_of_data hsplit.1
                  have htail : pyJoin "::" (x2 :: xs2) = pyJoin "::" (y2 :: ys3) :=
                    string_eq_of_data hsplit.2
                  have := ih (y2 :: ys3) (by simp) (by simp)
                    (fun p hp => hxc p (List.mem_cons_of_mem _ hp))
                    (fun p hp => hyc p (List.mem_cons_of_mem _ hp)) htail
                  rw [hxy, this]

/-- C3 (amended): `stable_id` is pure and deterministic; it is injective
on nonempty part lists whose parts contain no `':'` at all. The claim's
exception clause ("unless the separator occurs inside a part") is too
narrow: parts merely containing single colons at their edges, with the
separator inside no part, can also collide (see the counterexample). -/
theorem C3_stable_id_amended (xs ys : List String) (hx : xs ≠ [])
    (hy : ys ≠ []) (hxc : ∀ p ∈ xs, ':' ∉ p.data)
    (hyc : ∀ p ∈ ys, ':' ∉ p.data) :
    stable_id xs = stable_id ys ↔ xs = ys := by
  constructor
  · intro h
    exact pyJoin_inj xs ys hx hy hxc hyc (by simpa [stable_id, sha1_hex] using h)
  · intro h
    rw [h]

theorem C3_stable_id_amended_witness :
    stable_id ["ab", "c"] ≠ stable_id ["a", "bc"] := by
  intro h
  have := (C3_stable_id_amended ["ab", "c"] ["a", "bc"] (by decide)
    (by decide) (by decide) (by decide)).mp h
  exact absurd this (by decide)

/-- C2 (code bug): for `@deco` on line 1 decorating `def f():` on line 2,
the Decorates edge's `from_id` recomputes the decorator id with the
function's line (`node.lineno`, line 2), while the Decorator node was
emitted with the decorator's own line (`dec.lineno`, line 1) — so the edge
refers to an id that no node record of the unit carries, violating the
node-before-edge guarantee precisely for Decorates edges. -/
theorem C2_decorates_edge_dangling :
    ∃ e ∈ c2Extract.2.1, e.type = "DECORATES" ∧
      (∀ n ∈ c2Extract.1, n.id ≠ e.from_id) ∧
      (∃ n ∈ c2Extract.1, n.type = "Decorator" ∧
        n.name = Option.some "deco" ∧ n.id ≠ e.from_id) := by
  decide

/-- C7: `from os import path as p` yields exactly one Import node with
name `"path"`, alias `"p"`, module `"os"`, full name `"os.path"` and the
stdlib flag set, and the later `p.join(...)` call's edge carries the raw
callee text `"p.join"` with resolved origin `"os.path.join"` from
the import alias table. -/
theorem C7_import_alias_resolution :
    (c7Extract.1.filter (fun n => n.type == "Import")) =
      [{ id := stable_id [stable_id ["repo/m.py"], "import", "os.path", "1"]
         type := "Import"
         name := Option.some "path", module := Option.some "os"
         full_name := Option.some "os.path", aliasName := Option.some "p"
         import_type := Option.some "from", level := Option.some 0
         is_relative := Option.some false, lineno := Option.some 1
         is_stdlib := Option.some true }] ∧
    (∃ e ∈ c7Extract.2.1, e.type = "CALLS" ∧
      e.to_name = Option.some "p.join" ∧
      e.resolved_name = Option.some "os.path.join") := by
  decide

/-- C9 (code bug): with no `--exclude` given, `main` passes `args.exclude
or []` — the empty list, not `None` — so neither walker applies its
built-in default exclusion list: the `__pycache__` directory is traversed,
its `.py` file is discovered for extraction and its Directory node is
emitted; had the defaults been applied (a `None` argument), both walkers
would have skipped it. -/
theorem C9_default_excludes_bypassed :
    find_python_files "repo" c9Tree (Option.some (mainExclude Option.none)) =
      ["repo/__pycache__/cached.py"] ∧
    find_python_files "repo" c9Tree Option.none = [] ∧
    ((build_directory_tree "repo" c9Tree
        (Option.some (mainExclude Option.none))).1.filter
      (fun n => n.name == Option.some "__pycache__")).length = 1 ∧
    ((build_directory_tree "repo" c9Tree Option.none).1.filter
      (fun n => n.name == Option.some "__pycache__")).length = 0 := by
  decide

/-- C10: `from os import path, path as p` emits two distinct Import node
records (their `alias` fields differ) carrying the same id, because
the import id is derived only from the file id, the imported target
(`"os.path"`) and the line number. -/
theorem C10_duplicate_import_ids :
    (∃ n1 ∈ c10Extract.1, ∃ n2 ∈ c10Extract.1,
      n1.type = "Import" ∧ n2.type = "Import" ∧ n1 ≠ n2 ∧ n1.id = n2.id) ∧
    (∀ n ∈ c10Extract.1, n.type = "Import" →
      n.id = stable_id [stable_id ["repo/m.py"], "import", "os.path", "1"]) := by
  decide

theorem rbind_assoc (r : TraceRes) (k1 k2 : XState → TraceRes) :
    rbind (rbind r k1) k2 = rbind r (fun s => rbind (k1 s) k2) := by
  cases r <;> rfl

theorem visitStmtList_append (l1 l2 : List Stmt) (s : XState) :
    visitStmtList (l1 ++ l2) s =
      rbind (visitStmtList l1 s) (fun s => visitStmtList l2 s) := by
  induction l1 generalizing s with
  | nil => rfl
  | cons st rest ih =>
      show rbind (visitStmt st s) _ = _
      rw [show visitStmtList (st :: rest) s =
        rbind (visitStmt st s) (fun s => visitStmtList rest s) from rfl,
        rbind_assoc]
      exact congrArg _ (funext fun s => ih s)

/-- C4: `extract_file` isolates every failure at the unit boundary — a
read or parse failure yields empty node, edge and statistics collections
(and the orchestrator loop counts such a unit as one error and continues);
a fault raised mid-traversal after parsing succeeded yields exactly the
records accumulated up to the fault, the same output as extracting the
module truncated at the fault, rather than discarding them. The model's
`extract_file` returns on every input — no exception escapes it. -/
theorem C4_extract_file_error_isolation (root p src : String)
    (ss1 ss2 : List Stmt) (ln : Nat) (s1 : XState)
    (h : visitStmtList ss1 (recordFileNodeS (initState root p src)) = .ok s1) :
    extract_file root p .readError = ([], [], []) ∧
    extract_file root p .parseError = ([], [], []) ∧
    extract_file root p (.source src (ss1 ++ .fault ln :: ss2)) =
      (s1.nodes, s1.edges, s1.stats) ∧
    extract_file root p (.source src (ss1 ++ .fault ln :: ss2)) =
      extract_file root p (.source src ss1) ∧
    (∀ rest, analyzeLoopErrors root ((p, .readError) :: rest) =
      1 + analyzeLoopErrors root rest) := by
  have hfault :
      visitStmtList (ss1 ++ .fault ln :: ss2)
        (recordFileNodeS (initState root p src)) = .exn s1 := by
    rw [visitStmtList_append, h]
    rfl
  refine ⟨rfl, rfl, ?_, ?_, ?_⟩
  · simp [extract_file, hfault]
  · simp [extract_file, hfault, h]
  · intro rest
    simp [analyzeLoopErrors, extract_file]

theorem C4_extract_file_error_isolation_witness :
    extract_file "r" "r/a.py"
      (.source "x = 1"
        ([Stmt.assign 1 [Expr.name 1 "x"] (Expr.const 1 (Const.int 1))] ++
          Stmt.fault 2 :: [Stmt.pass 3])) =
      extract_file "r" "r/a.py"
        (.source "x = 1"
          [Stmt.assign 1 [Expr.name 1 "x"] (Expr.const 1 (Const.int 1))]) :=
  (C4_extract_file_error_isolation "r" "r/a.py" "x = 1"
    [Stmt.assign 1 [Expr.name 1 "x"] (Expr.const 1 (Const.int 1))]
    [Stmt.pass 3] 2
    ((visitStmtList
        [Stmt.assign 1 [Expr.name 1 "x"] (Expr.const 1 (Const.int 1))]
        (recordFileNodeS (initState "r" "r/a.py" "x = 1"))).state)
    (by decide)).2.2.2.1

theorem countP_or_disjoint {α : Type} (l : List α) (p q : α → Bool)
    (h : ∀ a ∈ l, ¬(p a = true ∧ q a = true)) :
    l.countP p + l.countP q = l.countP (fun a => p a || q a) := by
  induction l with
  | nil => simp
  | cons a rest ih =>
      have ih' := ih (fun x hx => h x (List.mem_cons_of_mem _ hx))
      cases hp : p a <;> cases hq : q a
      · simp [List.countP_cons, hp, hq, ← ih']
      · simp [List.countP_cons, hp, hq, ← ih']
        omega
      · simp [List.countP_cons, hp, hq, ← ih']
        omega
      · exact absurd ⟨hp, hq⟩ (h a (List.mem_cons_self _ _))

theorem nodeChunksInsert_eq_aux (accepts : NodeRec → Bool) (bs : Nat) :
    ∀ (n : Nat) (l : List NodeRec), l.length ≤ n →
      nodeChunksInsert accepts bs l = l.countP accepts := by
  intro n
  induction n with
  | zero =>
      intro l hl
      have : l = [] := List.length_eq_zero.mp (Nat.le_zero.mp hl)
      subst this
      simp [nodeChunksInsert]
  | succ n ih =>
      intro l hl
      match l with
      | [] => simp [nodeChunksInsert]
      | x :: xs =>
          have hdl : ((x :: xs).drop (max bs 1)).length ≤ n := by
            simp only [List.length_drop, List.length_cons]
            have : 1 ≤ max bs 1 := le_max_right _ _
            simp only [List.length_cons] at hl
            omega
          have hsplit : (x :: xs).countP accepts =
              ((x :: xs).take (max bs 1)).countP accepts +
                ((x :: xs).drop (max bs 1)).countP accepts := by
            rw [← List.countP_append, List.take_append_drop]
          simp only [nodeChunksInsert]
          rw [ih _ hdl, hsplit]
          by_cases hall : ((x :: xs).take (max bs 1)).all accepts = true
          · rw [if_pos hall,
              List.countP_eq_length.mpr (fun a ha => List.all_eq_true.mp hall a ha)]
          · rw [if_neg hall]

theorem nodeChunksInsert_eq (accepts : NodeRec → Bool) (bs : Nat)
    (l : List NodeRec) : nodeChunksInsert accepts bs l = l.countP accepts :=
  nodeChunksInsert_eq_aux accepts bs l.length l le_rfl

theorem edgeChunksInsert_eq_aux (accepts : NormEdge → Bool)
    (ids : List String) (bs : Nat) :
    ∀ (n : Nat) (l : List NormEdge), l.length ≤ n →
      (edgeChunksInsert accepts ids bs l).1 =
        l.countP (fun r => accepts r && normMatched ids r) ∧
      ∀ r ∈ (edgeChunksInsert accepts ids bs l).2, r ∈ l := by
  intro n
  induction n with
  | zero =>
      intro l hl
      have : l = [] := List.length_eq_zero.mp (Nat.le_zero.mp hl)
      subst this
      simp [edgeChunksInsert]
  | succ n ih =>
      intro l hl
      match l with
      | [] => simp [edgeChunksInsert]
      | x :: xs =>
          have hdl : ((x :: xs).drop (max bs 1)).length ≤ n := by
            simp only [List.length_drop, List.length_cons]
            have : 1 ≤ max bs 1 := le_max_right _ _
            simp only [List.length_cons] at hl
            omega
          have ihd := ih _ hdl
          have hsplit : (x :: xs).countP (fun r => accepts r && normMatched ids r) =
              ((x :: xs).take (max bs 1)).countP (fun r => accepts r && normMatched ids r) +
                ((x :: xs).drop (max bs 1)).countP (fun r => accepts r && normMatched ids r) := by
            rw [← List.countP_append, List.take_append_drop]
          constructor
          · simp only [edgeChunksInsert]
            rw [ihd.1, hsplit]
            by_cases hall : ((x :: xs).take (max bs 1)).all accepts = true
            · rw [if_pos hall]
              congr 1
              refine List.countP_congr (fun r hr => ?_)
              have := List.all_eq_true.mp hall r hr
              simp [this]
            · rw [if_neg hall]
          · simp only [edgeChunksInsert]
            intro r hr
            by_cases hall : ((x :: xs).take (max bs 1)).all accepts = true
            · rw [if_pos hall] at hr
              rcases List.mem_append.mp hr with h | h
              · exact List.mem_of_mem_take h
              · exact List.mem_of_mem_drop (ihd.2 r h)
            · rw [if_neg hall] at hr
              rcases List.mem_append.mp hr with h | h
              · rcases List.mem_append.mp h with h2 | h2 <;>
                  exact List.mem_of_mem_take h2
              · exact List.mem_of_mem_drop (ihd.2 r h)

theorem edgeChunksInsert_eq (accepts : NormEdge → Bool) (ids : List String)
    (bs : Nat) (l : List NormEdge) :
    (edgeChunksInsert accepts ids bs l).1 =
      l.countP (fun r => accepts r && normMatched ids r) ∧
    ∀ r ∈ (edgeChunksInsert accepts ids bs l).2, r ∈ l :=
  edgeChunksInsert_eq_aux accepts ids bs l.length l le_rfl

theorem length_sub_filter {α : Type} (l : List α) (p : α → Bool) :
    l.length - (l.filter p).length = l.countP (fun a => !(p a)) := by
  induction l with
  | nil => simp
  | cons a rest ih =>
      have hle := List.length_filter_le p rest
      cases hp : p a <;>
        simp [List.filter_cons, hp, List.countP_cons, ← ih] <;> omega

theorem normalizeEdge_toKey_isSome {e : EdgeRec}
    (h : edgeHasDest e = true) : (normalizeEdge e).toKey.isSome = true := by
  unfold edgeHasDest at h
  unfold normalizeEdge
  cases hid : e.to_id with
  | some t => simp
  | none =>
      simp [hid] at h ⊢
      exact h

theorem binGo_eq (accepts : NodeRec → Bool) (bs : Nat)
    (nodes : List NodeRec) :
    ∀ keys : List String, keys.Nodup →
      binGo accepts bs nodes keys =
        nodes.countP (fun n => accepts n && keys.contains n.type) := by
  intro keys
  induction keys with
  | nil =>
      intro _
      simp only [binGo]
      exact (List.countP_eq_zero.mpr (by simp)).symm
  | cons k ks ih =>
      intro hnd
      simp only [binGo]
      rw [nodeChunksInsert_eq, List.countP_filter, ih hnd.of_cons]
      have hknotin : k ∉ ks := (List.nodup_cons.mp hnd).1
      have hdisj : ∀ x ∈ nodes,
          ¬((fun n => accepts n && n.type == k) x = true ∧
            (fun n => accepts n && ks.contains n.type) x = true) := by
        intro x _ hx
        have hx1 : x.type = k := eq_of_beq (Bool.and_eq_true_iff.mp hx.1).2
        have hx2 : x.type ∈ ks :=
          List.elem_iff.mp (Bool.and_eq_true_iff.mp hx.2).2
        exact hknotin (hx1 ▸ hx2)
      rw [countP_or_disjoint nodes _ _ hdisj]
      refine List.countP_congr (fun x _ => ?_)
      cases hax : accepts x <;>
        simp [hax, List.contains_cons, Bool.and_or_distrib_left]

theorem bieGo_props (accepts : NormEdge → Bool) (ids : List String)
    (bs : Nat) (edges : List EdgeRec) :
    ∀ keys : List String, keys.Nodup →
      (bieGo accepts ids bs edges keys).inserted =
        edges.countP (fun e => (edgeHasDest e &&
          (accepts (normalizeEdge e) && normMatched ids (normalizeEdge e))) &&
          keys.contains e.type) ∧
      (bieGo accepts ids bs edges keys).skipped =
        edges.countP (fun e => !(edgeHasDest e) && keys.contains e.type) ∧
      ∀ r ∈ (bieGo accepts ids bs edges keys).submitted,
        r.toKey.isSome = true := by
  intro keys
  induction keys with
  | nil =>
      intro _
      refine ⟨?_, ?_, ?_⟩
      · simp only [bieGo]
        exact (List.countP_eq_zero.mpr (by simp)).symm
      · simp only [bieGo]
        exact (List.countP_eq_zero.mpr (by simp)).symm
      · simp [bieGo]
  | cons k ks ih =>
      intro hnd
      have ihk := ih hnd.of_cons
      have hknotin : k ∉ ks := (List.nodup_cons.mp hnd).1
      refine ⟨?_, ?_, ?_⟩
      · simp only [bieGo]
        rw [(edgeChunksInsert_eq accepts ids bs _).1, List.countP_map, ihk.1]
        have hstep :
            ((edges.filter (fun e => e.type == k)).filter edgeHasDest).countP
              ((fun r => accepts r && normMatched ids r) ∘ normalizeEdge) =
            edges.countP (fun e => (edgeHasDest e &&
              (accepts (normalizeEdge e) && normMatched ids (normalizeEdge e))) &&
              e.type == k) := by
          rw [List.countP_filter, List.countP_filter]
          refine List.countP_congr (fun e _ => ?_)
          simp only [Function.comp]
          cases edgeHasDest e <;> cases accepts (normalizeEdge e) <;>
            cases normMatched ids (normalizeEdge e) <;> simp
        rw [hstep]
        have hdisj : ∀ x ∈ edges,
            ¬((fun e => (edgeHasDest e && (accepts (normalizeEdge e) &&
                normMatched ids (normalizeEdge e))) && e.type == k) x = true ∧
              (fun e => (edgeHasDest e && (accepts (normalizeEdge e) &&
                normMatched ids (normalizeEdge e))) && ks.contains e.type) x = true) := by
          intro x _ hx
          have hx1 : x.type = k := eq_of_beq (Bool.and_eq_true_iff.mp hx.1).2
          have hx2 : x.type ∈ ks :=
            List.elem_iff.mp (Bool.and_eq_true_iff.mp hx.2).2
          exact hknotin (hx1 ▸ hx2)
        rw [countP_or_disjoint edges _ _ hdisj]
        refine List.countP_congr (fun x _ => ?_)
        cases hb : (edgeHasDest x &&
            (accepts (normalizeEdge x) && normMatched ids (normalizeEdge x))) <;>
          simp [hb, List.contains_cons, Bool.and_or_distrib_left]
      · simp only [bieGo]
        rw [length_sub_filter, ihk.2.1]
        have hdisj : ∀ x ∈ edges,
            ¬((fun e => !(edgeHasDest e) && e.type == k) x = true ∧
              (fun e => !(edgeHasDest e) && ks.contains e.type) x = true) := by
          intro x _ hx
          have hx1 : x.type = k := eq_of_beq (Bool.and_eq_true_iff.mp hx.1).2
          have hx2 : x.type ∈ ks :=
            List.elem_iff.mp (Bool.and_eq_true_iff.mp hx.2).2
          exact hknotin (hx1 ▸ hx2)
        have hfil :
            (edges.filter (fun e => e.type == k)).countP (fun e => !(edgeHasDest e)) =
              edges.countP (fun e => !(edgeHasDest e) && e.type == k) := by
          rw [List.countP_filter]
        rw [hfil, countP_or_disjoint edges _ _ hdisj]
        refine List.countP_congr (fun x _ => ?_)
        cases hb : edgeHasDest x <;>
          simp [hb, List.contains_cons, Bool.and_or_distrib_left]
      · simp only [bieGo]
        intro r hr
        rcases List.mem_append.mp hr with h | h
        · have hmem := (edgeChunksInsert_eq accepts ids bs _).2 r h
          rcases List.mem_map.mp hmem with ⟨e, he, rfl⟩
          exact normalizeEdge_toKey_isSome (List.of_mem_filter he)
        · exact ihk.2.2 r h

theorem sortedEdgeTypes_nodup (edges : List EdgeRec) :
    (sortedEdgeTypes edges).Nodup :=
  ((List.perm_insertionSort (· ≤ ·) _).nodup_iff).mpr (List.nodup_dedup _)

theorem sortedEdgeTypes_contains (edges : List EdgeRec) (e : EdgeRec)
    (he : e ∈ edges) : (sortedEdgeTypes edges).contains e.type = true := by
  apply List.elem_iff.mpr
  unfold sortedEdgeTypes
  rw [List.mem_insertionSort, List.mem_dedup]
  exact List.mem_map_of_mem _ he

/-- C5: in `batch_insert_edges`, an edge with no destination node id (no
`to_id` and no `to` key) is counted as an inferred/external reference and
skipped: the reported skipped-external total equals exactly the number of
such edges, and every record actually submitted to the store carries a
destination key. The loader returns on every input — a skipped edge fails
nothing. -/
theorem C5_external_edges_skipped (accepts : NormEdge → Bool)
    (ids : List String) (edges : List EdgeRec) (bs : Nat) :
    (batch_insert_edges accepts ids edges bs).skipped =
      edges.countP (fun e => !(edgeHasDest e)) ∧
    ∀ r ∈ (batch_insert_edges accepts ids edges bs).submitted,
      r.toKey.isSome = true := by
  have h := bieGo_props accepts ids bs edges (sortedEdgeTypes edges)
    (sortedEdgeTypes_nodup edges)
  refine ⟨?_, h.2.2⟩
  rw [show batch_insert_edges accepts ids edges bs =
    bieGo accepts ids bs edges (sortedEdgeTypes edges) from rfl, h.2.1]
  refine List.countP_congr (fun e he => ?_)
  have hm : e.type ∈ sortedEdgeTypes edges :=
    List.elem_iff.mp (sortedEdgeTypes_contains edges e he)
  simp [hm]

/-- C6: batch failures are isolated per record — the loader inserts
exactly the records the store accepts: for nodes, every accepted record of
a recognized kind is inserted however many other records of its batch or
of other batches are rejected; for edges, every accepted direct record
whose endpoints match is inserted likewise. A single malformed record
never aborts the load: the result is determined record by record. -/
theorem C6_batch_failure_isolation (naccepts : NodeRec → Bool)
    (nodes : List NodeRec) (eaccepts : NormEdge → Bool) (ids : List String)
    (edges : List EdgeRec) (bs : Nat) :
    batch_insert_nodes naccepts nodes bs =
      nodes.countP (fun n => naccepts n && nodeTypeOrder.contains n.type) ∧
    (batch_insert_edges eaccepts ids edges bs).inserted =
      edges.countP (fun e => edgeHasDest e &&
        (eaccepts (normalizeEdge e) && normMatched ids (normalizeEdge e))) := by
  constructor
  · exact binGo_eq naccepts bs nodes nodeTypeOrder (by decide)
  · have h := bieGo_props eaccepts ids bs edges (sortedEdgeTypes edges)
      (sortedEdgeTypes_nodup edges)
    rw [show batch_insert_edges eaccepts ids edges bs =
      bieGo eaccepts ids bs edges (sortedEdgeTypes edges) from rfl, h.1]
    refine List.countP_congr (fun e he => ?_)
    have hm : e.type ∈ sortedEdgeTypes edges :=
      List.elem_iff.mp (sortedEdgeTypes_contains edges e he)
    simp [hm]

theorem nodeIds_emitNodeS (n : NodeRec) (s : XState) :
    nodeIds (emitNodeS n s) = nodeIds s ++ [n.id] := by
  simp [nodeIds, emitNodeS]

theorem edgeOkC8_mono {ids ids' : List String} {e : EdgeRec}
    (hsub : ids ⊆ ids') (h : edgeOkC8 ids e = true) :
    edgeOkC8 ids' e = true := by
  unfold edgeOkC8 at h ⊢
  cases hr : relevantC8 e
  · simp [hr]
  · simp only [hr, Bool.not_true, Bool.false_or] at h ⊢
    cases hid : e.to_id with
    | none => simp [hid] at h ⊢; exact h
    | some t =>
        simp only [hid] at h ⊢
        exact List.elem_iff.mpr (hsub (List.elem_iff.mp h))

theorem edgeOkC8_irrelevant {ids : List String} {e : EdgeRec}
    (h : relevantC8 e = false) : edgeOkC8 ids e = true := by
  simp [edgeOkC8, h]

theorem edgeOkC8_to_name {ids : List String} {e : EdgeRec}
    (h1 : e.to_id = Option.none) (h2 : e.to_name.isSome = true) :
    edgeOkC8 ids e = true := by
  simp [edgeOkC8, h1, h2]

theorem edgeOkC8_to_id {ids : List String} {e : EdgeRec} {t : String}
    (h1 : e.to_id = Option.some t) (h2 : t ∈ ids) :
    edgeOkC8 ids e = true := by
  simp [edgeOkC8, h1]
  exact Or.inr h2

theorem invC8_congr {s s' : XState} (hn : s'.nodes = s.nodes)
    (he : s'.edges = s.edges) (hd : s'.definedNames = s.definedNames)
    (h : InvC8 s) : InvC8 s' := by
  constructor
  · intro kv hkv
    rw [hd] at hkv
    have := h.1 kv hkv
    simpa [nodeIds, hn] using this
  · intro e2 he2
    rw [he] at he2
    have := h.2 e2 he2
    have hids : nodeIds s' = nodeIds s := by simp [nodeIds, hn]
    rw [hids]
    exact this

theorem inv_emitNodeS (n : NodeRec) (s : XState) (h : InvC8 s) :
    InvC8 (emitNodeS n s) ∧ nodeIds s ⊆ nodeIds (emitNodeS n s) := by
  have hsub : nodeIds s ⊆ nodeIds (emitNodeS n s) := by
    rw [nodeIds_emitNodeS]
    exact List.subset_append_left _ _
  refine ⟨⟨?_, ?_⟩, hsub⟩
  · intro kv hkv
    exact hsub (h.1 kv hkv)
  · intro e2 he2
    exact edgeOkC8_mono hsub (h.2 e2 he2)

theorem inv_emitEdgeS (e : EdgeRec) (s : XState) (h : InvC8 s)
    (he : edgeOkC8 (nodeIds s) e = true) : InvC8 (emitEdgeS e s) := by
  refine ⟨h.1, ?_⟩
  intro e2 he2
  rcases List.mem_append.mp he2 with h2 | h2
  · exact h.2 e2 h2
  · rw [List.mem_singleton.mp h2]
    exact he

theorem inv_bumpStat (k : String) (s : XState) (h : InvC8 s) :
    InvC8 (bumpStat k s) :=
  invC8_congr rfl rfl rfl h

theorem dictGet_mem_values {m : List (String × String)} {k v : String}
    (h : dictGet m k = Option.some v) : ∃ kv ∈ m, kv.2 = v := by
  unfold dictGet at h
  cases hf : m.find? (fun kv => kv.1 == k) with
  | none => rw [hf] at h; exact Option.noConfusion h
  | some kv =>
      rw [hf] at h
      exact ⟨kv, List.mem_of_find?_eq_some hf, Option.some.inj h⟩

theorem good_trans {s0 s1 s2 : XState}
    (h1 : InvC8 s1 ∧ nodeIds s0 ⊆ nodeIds s1)
    (h2 : InvC8 s1 → InvC8 s2 ∧ nodeIds s1 ⊆ nodeIds s2) :
    InvC8 s2 ∧ nodeIds s0 ⊆ nodeIds s2 :=
  ⟨(h2 h1.1).1, fun x hx => (h2 h1.1).2 (h1.2 hx)⟩

theorem good_step_emitNode {s0 s : XState} (n : NodeRec)
    (h : InvC8 s ∧ nodeIds s0 ⊆ nodeIds s) :
    InvC8 (emitNodeS n s) ∧ nodeIds s0 ⊆ nodeIds (emitNodeS n s) :=
  ⟨(inv_emitNodeS n s h.1).1, fun x hx => (inv_emitNodeS n s h.1).2 (h.2 hx)⟩

theorem good_step_emitEdge {s0 s : XState} (e : EdgeRec)
    (h : InvC8 s ∧ nodeIds s0 ⊆ nodeIds s)
    (he : edgeOkC8 (nodeIds s) e = true) :
    InvC8 (emitEdgeS e s) ∧ nodeIds s0 ⊆ nodeIds (emitEdgeS e s) :=
  ⟨inv_emitEdgeS e s h.1 he, h.2⟩

theorem good_step_bump {s0 s : XState} (k : String)
    (h : InvC8 s ∧ nodeIds s0 ⊆ nodeIds s) :
    InvC8 (bumpStat k s) ∧ nodeIds s0 ⊆ nodeIds (bumpStat k s) :=
  ⟨inv_bumpStat k s h.1, h.2⟩

theorem inv_define_then_emit (s : XState) (nm id2 : String) (n : NodeRec)
    (hid : n.id = id2) (h : InvC8 s) :
    InvC8 (emitNodeS n { s with definedNames := dictSet s.definedNames nm id2 }) ∧
      nodeIds s ⊆
        nodeIds (emitNodeS n { s with definedNames := dictSet s.definedNames nm id2 }) := by
  have hids : nodeIds (emitNodeS n { s with definedNames := dictSet s.definedNames nm id2 }) =
      nodeIds s ++ [n.id] := by
    simp [nodeIds, emitNodeS]
  have hsub : nodeIds s ⊆
      nodeIds (emitNodeS n { s with definedNames := dictSet s.definedNames nm id2 }) := by
    rw [hids]; exact List.subset_append_left _ _
  refine ⟨⟨?_, ?_⟩, hsub⟩
  · intro kv hkv
    rcases List.mem_cons.mp hkv with h2 | h2
    · rw [h2, hids, hid]
      simp
    · exact hsub (h.1 kv h2)
  · intro e2 he2
    exact edgeOkC8_mono hsub (h.2 e2 he2)

theorem inv_define_existing (s : XState) (nm v : String)
    (hv : v ∈ nodeIds s) (h : InvC8 s) :
    InvC8 { s with definedNames := dictSet s.definedNames nm v } ∧
      nodeIds s ⊆ nodeIds { s with definedNames := dictSet s.definedNames nm v } := by
  refine ⟨⟨?_, h.2⟩, fun x hx => hx⟩
  intro kv hkv
  rcases List.mem_cons.mp hkv with h2 | h2
  · rw [h2]; exact hv
  · exact h.1 kv h2

theorem visitImportAliases_good (lineno : Nat) :
    ∀ (l : List ImportAlias) (s : XState), InvC8 s →
      InvC8 (visitImportAliases lineno l s) ∧
        nodeIds s ⊆ nodeIds (visitImportAliases lineno l s) := by
  intro l
  induction l with
  | nil => intro s h; exact ⟨h, fun x hx => hx⟩
  | cons al rest ih =>
      intro s h
      simp only [visitImportAliases]
      refine good_trans ?_ (fun hh => ih _ hh)
      refine good_step_bump _ ?_
      refine good_step_emitEdge _ ?_ (edgeOkC8_irrelevant rfl)
      refine good_step_emitNode _ ?_
      exact ⟨invC8_congr rfl rfl rfl h, fun x hx => hx⟩

theorem visitImportFromAliases_good (lineno : Nat) (module : String)
    (level : Nat) :
    ∀ (l : List ImportAlias) (s : XState), InvC8 s →
      InvC8 (visitImportFromAliases lineno module level l s) ∧
        nodeIds s ⊆ nodeIds (visitImportFromAliases lineno module level l s) := by
  intro l
  induction l with
  | nil => intro s h; exact ⟨h, fun x hx => hx⟩
  | cons al rest ih =>
      intro s h
      simp only [visitImportFromAliases]
      refine good_trans ?_ (fun hh => ih _ hh)
      refine good_step_bump _ ?_
      refine good_step_emitEdge _ ?_ (edgeOkC8_irrelevant rfl)
      refine good_step_emitNode _ ?_
      exact ⟨invC8_congr rfl rfl rfl h, fun x hx => hx⟩

theorem extractDecoratorsS_good :
    ∀ (l : List Expr) (s : XState), InvC8 s →
      InvC8 (extractDecoratorsS l s).2 ∧
        nodeIds s ⊆ nodeIds (extractDecoratorsS l s).2 := by
  intro l
  induction l with
  | nil => intro s h; exact ⟨h, fun x hx => hx⟩
  | cons dec rest ih =>
      intro s h
      simp only [extractDecoratorsS]
      cases hdn : (decInfoOf dec).name with
      | none =>
          simp only [hdn]
          exact ih s h
      | some n =>
          simp only [hdn]
          refine good_trans ?_ (fun hh => ih _ hh)
          refine good_step_bump _ ?_
          refine good_step_emitNode _ ?_
          exact ⟨h, fun x hx => hx⟩

theorem emitParamRecords_good (fnId : String) :
    ∀ (l : List ParamRec) (s : XState), InvC8 s →
      InvC8 (emitParamRecords fnId l s) ∧
        nodeIds s ⊆ nodeIds (emitParamRecords fnId l s) := by
  intro l
  induction l with
  | nil => intro s h; exact ⟨h, fun x hx => hx⟩
  | cons p rest ih =>
      intro s h
      simp only [emitParamRecords]
      refine good_trans ?_ (fun hh => ih _ hh)
      refine good_step_emitEdge _ ?_ (edgeOkC8_irrelevant rfl)
      refine good_step_emitNode _ ?_
      exact ⟨h, fun x hx => hx⟩

theorem emitDecoratesEdges_good (fnId : String) (lineno : Nat) :
    ∀ (l : List DecInfo) (s : XState), InvC8 s →
      InvC8 (emitDecoratesEdges fnId lineno l s) ∧
        nodeIds s ⊆ nodeIds (emitDecoratesEdges fnId lineno l s) := by
  intro l
  induction l with
  | nil => intro s h; exact ⟨h, fun x hx => hx⟩
  | cons d rest ih =>
      intro s h
      simp only [emitDecoratesEdges]
      cases hdn : d.name with
      | none =>
          simp only [hdn]
          exact ih s h
      | some n =>
          simp only [hdn]
          refine good_trans ?_ (fun hh => ih _ hh)
          refine good_step_emitEdge _ ?_ (edgeOkC8_irrelevant rfl)
          exact ⟨h, fun x hx => hx⟩

theorem emitInheritEdges_good (classId : String) :
    ∀ (l : List String) (s : XState), InvC8 s →
      InvC8 (emitInheritEdges classId l s) ∧
        nodeIds s ⊆ nodeIds (emitInheritEdges classId l s) := by
  intro l
  induction l with
  | nil => intro s h; exact ⟨h, fun x hx => hx⟩
  | cons base rest ih =>
      intro s h
      simp only [emitInheritEdges]
      cases hdg : dictGet s.definedNames base with
      | some bid =>
          simp only [hdg]
          refine good_trans ?_ (fun hh => ih _ hh)
          refine good_step_emitEdge _ ?_ ?_
          · exact ⟨h, fun x hx => hx⟩
          · obtain ⟨kv, hkv, hkv2⟩ := dictGet_mem_values hdg
            exact edgeOkC8_to_id rfl (hkv2 ▸ h.1 kv hkv)
      | none =>
          simp only [hdg]
          refine good_trans ?_ (fun hh => ih _ hh)
          refine good_step_emitEdge _ ?_ (edgeOkC8_to_name rfl rfl)
          exact ⟨h, fun x hx => hx⟩

theorem recordFunctionS_good (lineno endLineno : Nat) (isAsync : Bool)
    (name : String) (ags : Args) (body : List Stmt)
    (decoratorList : List Expr) (returns : Option Expr) (s : XState)
    (h : InvC8 s) :
    InvC8 (recordFunctionS lineno endLineno isAsync name ags body
        decoratorList returns s).2 ∧
      nodeIds s ⊆ nodeIds (recordFunctionS lineno endLineno isAsync name ags
        body decoratorList returns s).2 := by
  simp only [recordFunctionS]
  refine good_trans ?_ (fun hh => ⟨(good_step_bump _ ⟨hh, fun x hx => hx⟩).1,
    (good_step_bump _ ⟨hh, fun x hx => hx⟩).2⟩)
  refine good_trans ?_ (fun hh => emitDecoratesEdges_good _ _ _ _ hh)
  refine good_trans ?_ (fun hh => emitParamRecords_good _ _ _ hh)
  refine good_step_emitEdge _ ?_ (edgeOkC8_irrelevant rfl)
  refine good_trans ?_ (fun hh => inv_define_then_emit _ _ _ _ rfl hh)
  exact extractDecoratorsS_good decoratorList s h

theorem recordClassS_good (lineno endLineno : Nat) (name : String)
    (bases : List Expr) (body : List Stmt) (decoratorList : List Expr)
    (s : XState) (h : InvC8 s) :
    InvC8 (recordClassS lineno endLineno name bases body decoratorList s).2 ∧
      nodeIds s ⊆
        nodeIds (recordClassS lineno endLineno name bases body decoratorList s).2 := by
  simp only [recordClassS]
  refine good_trans ?_ (fun hh => ⟨(good_step_bump _ ⟨hh, fun x hx => hx⟩).1,
    (good_step_bump _ ⟨hh, fun x hx => hx⟩).2⟩)
  refine good_trans ?_ (fun hh => emitInheritEdges_good _ _ _ hh)
  refine good_step_emitEdge _ ?_ (edgeOkC8_irrelevant rfl)
  exact inv_define_then_emit s name _ _ rfl h

theorem good_step_define {s0 s : XState} (nm v : String)
    (hv : v ∈ nodeIds s)
    (h : InvC8 s ∧ nodeIds s0 ⊆ nodeIds s) :
    InvC8 { s with definedNames := dictSet s.definedNames nm v } ∧
      nodeIds s0 ⊆ nodeIds { s with definedNames := dictSet s.definedNames nm v } :=
  ⟨(inv_define_existing s nm v hv h.1).1, h.2⟩

theorem good_step_scopeVars {s0 : XState} (s : XState)
    (sv : List (String × String))
    (h : InvC8 s ∧ nodeIds s0 ⊆ nodeIds s) :
    InvC8 { s with scopeVars := sv } ∧
      nodeIds s0 ⊆ nodeIds { s with scopeVars := sv } :=
  ⟨invC8_congr rfl rfl rfl h.1, h.2⟩

theorem visitAssignTargetsS_good (scope : String) (isGlobal : Bool)
    (lineno : Nat) (value : Expr) :
    ∀ (l : List Expr) (s : XState), InvC8 s →
      InvC8 (visitAssignTargetsS scope isGlobal lineno value l s) ∧
        nodeIds s ⊆ nodeIds (visitAssignTargetsS scope isGlobal lineno value l s) := by
  intro l
  induction l with
  | nil => intro s h; exact ⟨h, fun x hx => hx⟩
  | cons t rest ih =>
      intro s h
      cases t with
      | name ln varName =>
          simp only [visitAssignTargetsS]
          refine good_trans ?_ (fun hh => ih _ hh)
          refine good_step_bump _ ?_
          refine good_step_define _ _ ?_ ?_
          · simp [nodeIds, emitNodeS, emitEdgeS]
          · refine good_step_scopeVars (emitEdgeS _ (emitNodeS _ s)) _ ?_
            refine good_step_emitEdge _ ?_ (edgeOkC8_irrelevant rfl)
            refine good_step_emitNode _ ?_
            exact ⟨h, fun x hx => hx⟩
      | attr ln v a => simp only [visitAssignTargetsS]; exact ih s h
      | call ln f as ks => simp only [visitAssignTargetsS]; exact ih s h
      | boolOp ln k vs => simp only [visitAssignTargetsS]; exact ih s h
      | const ln c => simp only [visitAssignTargetsS]; exact ih s h

theorem visitAssignS_good (lineno : Nat) (targets : List Expr)
    (value : Expr) (s : XState) (h : InvC8 s) :
    InvC8 (visitAssignS lineno targets value s) ∧
      nodeIds s ⊆ nodeIds (visitAssignS lineno targets value s) :=
  visitAssignTargetsS_good _ _ lineno value targets s h

theorem emitCallS_good (lineno : Nat) (func : Expr) (na nk : Nat)
    (s : XState) (h : InvC8 s) :
    InvC8 (emitCallS lineno func na nk s) ∧
      nodeIds s ⊆ nodeIds (emitCallS lineno func na nk s) := by
  cases func with
  | name l i =>
      simp only [emitCallS]
      by_cases hcond : i ≠ "" ∧ getCurrentScope s ≠ ""
      · rw [if_pos hcond]
        refine good_step_bump _ ?_
        refine good_step_emitEdge _ ⟨h, fun x hx => hx⟩ ?_
        cases hdg : dictGet s.definedNames ((pySplitOnChar '.' i).headD "") with
        | none => exact edgeOkC8_to_name (by simp [hdg]) rfl
        | some t =>
            by_cases ht : t = ""
            · exact edgeOkC8_to_name (by simp [hdg, ht]) rfl
            · obtain ⟨kv, hkv, hkv2⟩ := dictGet_mem_values hdg
              exact edgeOkC8_to_id (by simp [hdg, ht]) (hkv2 ▸ h.1 kv hkv)
      · rw [if_neg hcond]
        exact ⟨h, fun x hx => hx⟩
  | attr l v a =>
      simp only [emitCallS]
      by_cases hcond : getFullName (.attr l v a) ≠ "" ∧ getCurrentScope s ≠ ""
      · rw [if_pos hcond]
        refine good_step_bump _ ?_
        refine good_step_emitEdge _ ⟨h, fun x hx => hx⟩ ?_
        cases hdg : dictGet s.definedNames
            ((pySplitOnChar '.' (getFullName (.attr l v a))).headD "") with
        | none => exact edgeOkC8_to_name (by simp [hdg]) rfl
        | some t =>
            by_cases ht : t = ""
            · exact edgeOkC8_to_name (by simp [hdg, ht]) rfl
            · obtain ⟨kv, hkv, hkv2⟩ := dictGet_mem_values hdg
              exact edgeOkC8_to_id (by simp [hdg, ht]) (hkv2 ▸ h.1 kv hkv)
      · rw [if_neg hcond]
        exact ⟨h, fun x hx => hx⟩
  | call l f as ks => exact ⟨h, fun x hx => hx⟩
  | boolOp l k vs => exact ⟨h, fun x hx => hx⟩
  | const l c => exact ⟨h, fun x hx => hx⟩

theorem emitRaiseS_good (lineno : Nat) (exc : Option Expr) (s : XState)
    (h : InvC8 s) :
    InvC8 (emitRaiseS lineno exc s) ∧
      nodeIds s ⊆ nodeIds (emitRaiseS lineno exc s) := by
  cases exc with
  | none => exact ⟨h, fun x hx => hx⟩
  | some e =>
      cases hcf : s.currentFunction with
      | none =>
          simp only [emitRaiseS, hcf]
          exact ⟨h, fun x hx => hx⟩
      | some fn =>
          simp only [emitRaiseS, hcf, safeUnparse]
          by_cases hemp : pyTake (unparseExpr e) 200 = ""
          · rw [if_pos hemp]
            exact ⟨h, fun x hx => hx⟩
          · rw [if_neg hemp]
            refine good_step_emitEdge _ ⟨h, fun x hx => hx⟩ ?_
            exact edgeOkC8_to_name rfl rfl

theorem emitReturnS_good (lineno : Nat) (value : Option Expr) (s : XState)
    (h : InvC8 s) :
    InvC8 (emitReturnS lineno value s) ∧
      nodeIds s ⊆ nodeIds (emitReturnS lineno value s) := by
  cases value with
  | none => exact ⟨h, fun x hx => hx⟩
  | some e =>
      cases hcf : s.currentFunction with
      | none =>
          simp only [emitReturnS, hcf]
          exact ⟨h, fun x hx => hx⟩
      | some fn =>
          simp only [emitReturnS, hcf, safeUnparse]
          by_cases hemp : pyTake (unparseExpr e) 200 = ""
          · rw [if_pos hemp]
            exact ⟨h, fun x hx => hx⟩
          · rw [if_neg hemp]
            refine good_step_emitEdge _ ⟨h, fun x hx => hx⟩ ?_
            exact edgeOkC8_to_name rfl rfl

theorem rbind_good {s : XState} {r : TraceRes} {k : XState → TraceRes}
    (h1 : InvC8 r.state ∧ nodeIds s ⊆ nodeIds r.state)
    (h2 : ∀ s2, InvC8 s2 →
      InvC8 (k s2).state ∧ nodeIds s2 ⊆ nodeIds (k s2).state) :
    InvC8 (rbind r k).state ∧ nodeIds s ⊆ nodeIds (rbind r k).state := by
  cases r with
  | ok s2 =>
      have hk := h2 s2 h1.1
      exact ⟨hk.1, fun x hx => hk.2 (h1.2 hx)⟩
  | exn s2 => exact h1

mutual
theorem visitExpr_good : ∀ (e : Expr) (s : XState), InvC8 s →
    InvC8 (visitExpr e s).state ∧ nodeIds s ⊆ nodeIds (visitExpr e s).state
  | .name _ _, s, h => ⟨h, fun x hx => hx⟩
  | .const _ _, s, h => ⟨h, fun x hx => hx⟩
  | .attr _ v _, s, h => visitExpr_good v s h
  | .boolOp _ _ vs, s, h => visitExprList_good vs s h
  | .call l f as ks, s, h =>
      good_trans (emitCallS_good l f as.length ks.length s h)
        (fun hh => rbind_good (visitExpr_good f _ hh)
          (fun s2 h2 => rbind_good (visitExprList_good as s2 h2)
            (fun s3 h3 => visitKwList_good ks s3 h3)))

theorem visitExprList_good : ∀ (l : List Expr) (s : XState), InvC8 s →
    InvC8 (visitExprList l s).state ∧
      nodeIds s ⊆ nodeIds (visitExprList l s).state
  | [], s, h => ⟨h, fun x hx => hx⟩
  | e :: rest, s, h =>
      rbind_good (visitExpr_good e s h)
        (fun s2 h2 => visitExprList_good rest s2 h2)

theorem visitKwList_good :
    ∀ (ks : List (Option String × Expr)) (s : XState), InvC8 s →
      InvC8 (visitKwList ks s).state ∧
        nodeIds s ⊆ nodeIds (visitKwList ks s).state
  | [], s, h => ⟨h, fun x hx => hx⟩
  | (_, v) :: rest, s, h =>
      rbind_good (visitExpr_good v s h)
        (fun s2 h2 => visitKwList_good rest s2 h2)
end

theorem visitOptExprT_good (o : Option Expr) (s : XState) (h : InvC8 s) :
    InvC8 (visitOptExprT o s).state ∧
      nodeIds s ⊆ nodeIds (visitOptExprT o s).state :=
  match o with
  | Option.some e => visitExpr_good e s h
  | Option.none => ⟨h, fun x hx => hx⟩

theorem visitArgAnnList_good : ∀ (l : List Arg) (s : XState), InvC8 s →
    InvC8 (visitArgAnnList l s).state ∧
      nodeIds s ⊆ nodeIds (visitArgAnnList l s).state
  | [], s, h => ⟨h, fun x hx => hx⟩
  | a :: rest, s, h =>
      rbind_good (visitOptExprT_good a.ann s h)
        (fun s2 h2 => visitArgAnnList_good rest s2 h2)

theorem visitOptExprListT_good :
    ∀ (l : List (Option Expr)) (s : XState), InvC8 s →
      InvC8 (visitOptExprListT l s).state ∧
        nodeIds s ⊆ nodeIds (visitOptExprListT l s).state
  | [], s, h => ⟨h, fun x hx => hx⟩
  | o :: rest, s, h =>
      rbind_good (visitOptExprT_good o s h)
        (fun s2 h2 => visitOptExprListT_good rest s2 h2)

theorem visitArgsNode_good (a : Args) (s : XState) (h : InvC8 s) :
    InvC8 (visitArgsNode a s).state ∧
      nodeIds s ⊆ nodeIds (visitArgsNode a s).state := by
  obtain ⟨args, defaults, vararg, kwonly, kwdef, kwarg⟩ := a
  simp only [visitArgsNode]
  refine rbind_good (visitArgAnnList_good args s h) (fun s2 h2 => ?_)
  refine rbind_good ?_ (fun s3 h3 => ?_)
  · cases vararg with
    | some v => exact visitOptExprT_good v.ann s2 h2
    | none => exact ⟨h2, fun x hx => hx⟩
  · refine rbind_good (visitArgAnnList_good kwonly s3 h3) (fun s4 h4 => ?_)
    refine rbind_good (visitOptExprListT_good kwdef s4 h4) (fun s5 h5 => ?_)
    refine rbind_good ?_ (fun s6 h6 => visitExprList_good defaults s6 h6)
    cases kwarg with
    | some v => exact visitOptExprT_good v.ann s5 h5
    | none => exact ⟨h5, fun x hx => hx⟩

mutual
theorem visitStmt_good : ∀ (st : Stmt) (s : XState), InvC8 s →
    InvC8 (visitStmt st s).state ∧ nodeIds s ⊆ nodeIds (visitStmt st s).state
  | .functionDef ln el ia nm ags bd dl rt, s, h => by
      simp only [visitStmt]
      refine rbind_good ?_ (fun s3 h3 =>
        ⟨invC8_congr rfl rfl rfl h3, fun x hx => hx⟩)
      refine rbind_good ?_ (fun s4 h4 => ?_)
      · refine good_trans ?_ (fun hh => visitArgsNode_good ags _ hh)
        exact ⟨invC8_congr rfl rfl rfl
          (recordFunctionS_good ln el ia nm ags bd dl rt s h).1,
          (recordFunctionS_good ln el ia nm ags bd dl rt s h).2⟩
      · refine rbind_good (visitStmtList_good bd s4 h4) (fun s5 h5 => ?_)
        exact rbind_good (visitExprList_good dl s5 h5)
          (fun s6 h6 => visitOptExprT_good rt s6 h6)
  | .classDef ln el nm bs bd dl, s, h => by
      simp only [visitStmt]
      refine rbind_good ?_ (fun s3 h3 =>
        ⟨invC8_congr rfl rfl rfl h3, fun x hx => hx⟩)
      refine rbind_good ?_ (fun s4 h4 => ?_)
      · refine good_trans ?_ (fun hh => visitExprList_good bs _ hh)
        exact ⟨invC8_congr rfl rfl rfl
          (recordClassS_good ln el nm bs bd dl s h).1,
          (recordClassS_good ln el nm bs bd dl s h).2⟩
      · exact rbind_good (visitStmtList_good bd s4 h4)
          (fun s5 h5 => visitExprList_good dl s5 h5)
  | .assign ln ts v, s, h => by
      simp only [visitStmt]
      refine rbind_good ?_ (fun s2 h2 => visitExpr_good v s2 h2)
      exact good_trans (visitAssignS_good ln ts v s h)
        (fun hh => visitExprList_good ts _ hh)
  | .importStmt ln ns, s, h => visitImportAliases_good ln ns s h
  | .importFrom ln m ns lv, s, h =>
      visitImportFromAliases_good ln (m.getD "") lv ns s h
  | .ret ln v, s, h =>
      good_trans (emitReturnS_good ln v s h)
        (fun hh => visitOptExprT_good v _ hh)
  | .raiseStmt ln e, s, h =>
      good_trans (emitRaiseS_good ln e s h)
        (fun hh => visitOptExprT_good e _ hh)
  | .ifStmt _ t b o, s, h =>
      rbind_good (visitExpr_good t s h) (fun s2 h2 =>
        rbind_good (visitStmtList_good b s2 h2)
          (fun s3 h3 => visitStmtList_good o s3 h3))
  | .whileStmt _ t b o, s, h =>
      rbind_good (visitExpr_good t s h) (fun s2 h2 =>
        rbind_good (visitStmtList_good b s2 h2)
          (fun s3 h3 => visitStmtList_good o s3 h3))
  | .forStmt _ tg it b o, s, h =>
      rbind_good (visitExpr_good tg s h) (fun s2 h2 =>
        rbind_good (visitExpr_good it s2 h2) (fun s3 h3 =>
          rbind_good (visitStmtList_good b s3 h3)
            (fun s4 h4 => visitStmtList_good o s4 h4)))
  | .withStmt _ c b, s, h =>
      rbind_good (visitExpr_good c s h)
        (fun s2 h2 => visitStmtList_good b s2 h2)
  | .tryStmt _ b hs o f, s, h =>
      rbind_good (visitStmtList_good b s h) (fun s2 h2 =>
        rbind_good (visitHandlerList_good hs s2 h2) (fun s3 h3 =>
          rbind_good (visitStmtList_good o s3 h3)
            (fun s4 h4 => visitStmtList_good f s4 h4)))
  | .assertStmt _ t, s, h => visitExpr_good t s h
  | .exprStmt _ v, s, h => visitExpr_good v s h
  | .pass _, s, h => ⟨h, fun x hx => hx⟩
  | .fault _, s, h => ⟨h, fun x hx => hx⟩

theorem visitStmtList_good : ∀ (l : List Stmt) (s : XState), InvC8 s →
    InvC8 (visitStmtList l s).state ∧
      nodeIds s ⊆ nodeIds (visitStmtList l s).state
  | [], s, h => ⟨h, fun x hx => hx⟩
  | st :: rest, s, h =>
      rbind_good (visitStmt_good st s h)
        (fun s2 h2 => visitStmtList_good rest s2 h2)

theorem visitHandlerList_good : ∀ (l : List Handler) (s : XState), InvC8 s →
    InvC8 (visitHandlerList l s).state ∧
      nodeIds s ⊆ nodeIds (visitHandlerList l s).state
  | [], s, h => ⟨h, fun x hx => hx⟩
  | ⟨_, t, b⟩ :: rest, s, h =>
      rbind_good
        (rbind_good (visitOptExprT_good t s h)
          (fun s2 h2 => visitStmtList_good b s2 h2))
        (fun s3 h3 => visitHandlerList_good rest s3 h3)
end

theorem recordFileNode_init_inv (root p src : String) :
    InvC8 (recordFileNodeS (initState root p src)) :=
  ⟨fun kv hkv => absurd hkv (List.not_mem_nil kv),
   fun e he => absurd he (List.not_mem_nil e)⟩

/-- C8: in every unit the extractor processes, every emitted
Calls/Raises/Returns/Inherits edge either carries a `to_id` equal to the
id of a node record of the same unit's node set, or carries a `to_name`
and no `to_id` — never neither. This holds for the final record set of
every input, whether or not the traversal raised. -/
theorem C8_edge_destination_form (root p : String) (input : FileInput)
    (e : EdgeRec) (he : e ∈ (extract_file root p input).2.1) :
    edgeOkC8 ((extract_file root p input).1.map (fun n => n.id)) e = true := by
  cases input with
  | readError => exact absurd he (List.not_mem_nil e)
  | parseError => exact absurd he (List.not_mem_nil e)
  | source src tree =>
      have hg := visitStmtList_good tree (recordFileNodeS (initState root p src))
        (recordFileNode_init_inv root p src)
      cases hr : visitStmtList tree (recordFileNodeS (initState root p src)) with
      | ok s2 =>
          rw [hr] at hg
          simp only [extract_file, hr] at he ⊢
          exact hg.1.2 e he
      | exn s2 =>
          rw [hr] at hg
          simp only [extract_file, hr] at he ⊢
          exact hg.1.2 e he

theorem C8_edge_destination_form_witness :
    edgeOkC8
      ((extract_file "r" "r/m.py"
        (.source "def f():\n    raise E"
          [.functionDef 1 2 false "f" emptyArgs
            [.raiseStmt 2 (Option.some (.name 2 "E"))] [] Option.none])).1.map
        (fun n => n.id))
      { type := "RAISES", from_id := "r/m.py::function::f::1"
        to_name := Option.some "E", lineno := Option.some 2 } = true :=
  C8_edge_destination_form "r" "r/m.py"
    (.source "def f():\n    raise E"
      [.functionDef 1 2 false "f" emptyArgs
        [.raiseStmt 2 (Option.some (.name 2 "E"))] [] Option.none])
    { type := "RAISES", from_id := "r/m.py::function::f::1"
      to_name := Option.some "E", lineno := Option.some 2 }
    (by decide)

theorem C5_external_edges_skipped_witness :
    (batch_insert_edges (fun _ => true) ["n1"]
      [{ type := "CALLS", from_id := "f", to_name := Option.some "g" }]
      1000).skipped = 1 := by
  rw [(C5_external_edges_skipped (fun _ => true) ["n1"]
    [{ type := "CALLS", from_id := "f", to_name := Option.some "g" }]
    1000).1]
  decide
